import Mathlib

set_option maxHeartbeats 1000000

/-!
Verification development for the protocol (structural subtyping) assignability
engine found in packages/pyright-internal/src/analyzer/protocols.ts.

The file shallow-embeds the four functions of that module:

  - canAssignClassToProtocol          (entry point, recursion guard stack)
  - canAssignClassToProtocolInternal  (member walk for class candidates)
  - canAssignModuleToProtocol         (member walk for module candidates)
  - canAssignProtocolClassToSelf      (self variance validation)

External collaborators (the TypeEvaluator interface, properties.ts and the
typeUtils helpers) are modelled as an abstract record of functions
(Externals below).  Collaborator calls that run arbitrary type evaluation in
the source may fail abnormally (a thrown exception); they are modelled in an
Except monad so that the abnormal exit paths of the source are visible.
The module level mutable state (the protocolAssignmentStack, the mutable
DiagnosticAddendum and the mutable TypeVarContext objects) is threaded
explicitly.  Diagnostic addendum trees are flattened to the ordered list of
messages appended by this module; collaborator calls are modelled as adding
no messages of their own.
-/

namespace PyProto

/-- Kind of a declaration (DeclarationType in declaration.ts); only
DeclarationType.Variable is ever compared against in protocols.ts, so the
other kinds are collapsed into two representatives. -/
inductive DeclKind where
  | var
  | func
  | other
deriving DecidableEq

/-- A declaration attached to a symbol.  hasTypeSource models whether the
declaration carries type information: Symbol.getTypedDeclarations returns
exactly the declarations for which it holds. -/
structure Decl where
  kind : DeclKind
  isFinal : Bool
  hasTypeSource : Bool
deriving DecidableEq

/-- A member symbol (Symbol in symbol.ts), restricted to the capabilities
protocols.ts consumes: the classMember / classVar / ignored-for-protocol-match
flags and the ordered declaration list. -/
structure Symbol where
  symId : Nat
  isClassMember : Bool
  isClassVar : Bool
  isIgnoredForProtocolMatch : Bool
  declarations : List Decl
deriving DecidableEq

/-- Symbol.getTypedDeclarations: the declarations that carry a type. -/
def Symbol.getTypedDeclarations (s : Symbol) : List Decl :=
  s.declarations.filter (fun d => d.hasTypeSource)

/-- The non-recursive part of ClassType.details.  detailsId is the identity
of the shared details object: ClassType.isSameGenericClass holds exactly when
two class types share it. -/
structure ClassInfo where
  detailsId : Nat
  className : String
  isProtocol : Bool
  isTypedDict : Bool
  isProperty : Bool
  builtInName : Option String
  typeParamCount : Nat
deriving DecidableEq

/-- The closed set of type representations consumed by protocols.ts
(ClassType / ModuleType / FunctionType / OverloadedFunctionType / Unknown).
A ClassType carries its details (info, own fields, mro, base classes,
metaclass), its type arguments and the instance-vs-class-object flag. -/
inductive PType where
  | cls (info : ClassInfo) (fields : List (String × Symbol)) (mro : List PType)
      (baseClasses : List PType) (metaclass : Option PType)
      (typeArgs : Option (List PType)) (isInstance : Bool)
  | modTy (fields : List (String × Symbol))
  | funcTy (funcId : Nat)
  | ovlTy (funcId : Nat)
  | unknown

/-- isInstantiableClass from types.ts: a class type viewed as a class object. -/
def PType.isInstantiableClass : PType → Bool
  | .cls _ _ _ _ _ _ isInst => !isInst
  | _ => false

/-- isClassInstance from types.ts: a class type viewed as an instance. -/
def PType.isClassInstance : PType → Bool
  | .cls _ _ _ _ _ _ isInst => isInst
  | _ => false

/-- isFunction from types.ts. -/
def PType.isFunction : PType → Bool
  | .funcTy _ => true
  | _ => false

/-- isOverloadedFunction from types.ts. -/
def PType.isOverloadedFunction : PType → Bool
  | .ovlTy _ => true
  | _ => false

/-- ClassType.isProtocolClass. -/
def PType.isProtocolClass : PType → Bool
  | .cls i _ _ _ _ _ _ => i.isProtocol
  | _ => false

/-- ClassType.isTypedDictClass. -/
def PType.isTypedDictClass : PType → Bool
  | .cls i _ _ _ _ _ _ => i.isTypedDict
  | _ => false

/-- ClassType.isPropertyClass. -/
def PType.isPropertyClass : PType → Bool
  | .cls i _ _ _ _ _ _ => i.isProperty
  | _ => false

/-- ClassType.isBuiltIn with an explicit name. -/
def PType.isBuiltIn : PType → String → Bool
  | .cls i _ _ _ _ _ _, n => i.builtInName == some n
  | _, _ => false

/-- details.fields of a class (also the flat field table of a module view). -/
def PType.clsFields : PType → List (String × Symbol)
  | .cls _ f _ _ _ _ _ => f
  | .modTy f => f
  | _ => []

/-- details.mro of a class. -/
def PType.mro : PType → List PType
  | .cls _ _ m _ _ _ _ => m
  | _ => []

/-- details.baseClasses of a class. -/
def PType.baseClasses : PType → List PType
  | .cls _ _ _ b _ _ _ => b
  | _ => []

/-- details.effectiveMetaclass of a class. -/
def PType.effectiveMetaclass : PType → Option PType
  | .cls _ _ _ _ mc _ _ => mc
  | _ => none

/-- typeArguments of a class. -/
def PType.typeArgs : PType → Option (List PType)
  | .cls _ _ _ _ _ ta _ => ta
  | _ => none

/-- details.typeParameters.length of a class. -/
def PType.typeParamCount : PType → Nat
  | .cls i _ _ _ _ _ _ => i.typeParamCount
  | _ => 0

/-- ClassType.cloneAsInstance. -/
def PType.cloneAsInstance : PType → PType
  | .cls i f m b mc ta _ => .cls i f m b mc ta true
  | t => t

/-- ClassType.cloneAsInstantiable. -/
def PType.cloneAsInstantiable : PType → PType
  | .cls i f m b mc ta _ => .cls i f m b mc ta false
  | t => t

/-- ClassType.cloneForSpecialization with undefined type arguments: strips
the bound type arguments, producing the generic view of the class. -/
def PType.stripTypeArgs : PType → PType
  | .cls i f m b mc _ inst => .cls i f m b mc none inst
  | t => t

/-- ClassType.isSameGenericClass: both are classes sharing the same details. -/
def isSameGenericClass : PType → PType → Bool
  | .cls i _ _ _ _ _ _, .cls j _ _ _ _ _ _ => i.detailsId == j.detailsId
  | _, _ => false

/-- A TypeVarContext is modelled by its list of solve-for scope ids; the
solved bindings themselves are only ever consumed by collaborator calls. -/
structure TypeVarContext where
  scopeIds : List (Option Nat)
deriving DecidableEq

/-- TypeVarContext.addSolveForScope. -/
def TypeVarContext.addSolveForScope (ctx : TypeVarContext) (s : Option Nat) :
    TypeVarContext :=
  ⟨ctx.scopeIds ++ [s]⟩

/-- The two members of the CanAssignFlags bit set that protocols.ts consults
or sets; all other bits are never read in this module. -/
structure CanAssignFlags where
  enforceInvariance : Bool := false
  retainLiteralsForTypeVar : Bool := false
deriving DecidableEq

/-- CanAssignFlags.Default. -/
def CanAssignFlags.default : CanAssignFlags := {}

/-- Adding CanAssignFlags.EnforceInvariance to a flag set. -/
def CanAssignFlags.withEnforceInvariance (f : CanAssignFlags) : CanAssignFlags :=
  { f with enforceInvariance := true }

/-- The localized diagnostic messages appended by protocols.ts. -/
inductive DiagMsg where
  | protocolMemberMissing (name : String)
  | memberTypeMismatch (name : String)
  | memberIsInvariant (name : String)
  | memberIsFinalInProtocol (name : String)
  | memberIsNotFinalInProtocol (name : String)
  | protocolMemberClassVar (name : String)
deriving DecidableEq

/-- A DiagnosticAddendum, flattened to its ordered message list. -/
abbrev Diag := List DiagMsg

/-- DiagnosticAddendum.addMessage through an optional sink. -/
def addMsg : Option Diag → DiagMsg → Option Diag
  | some l, m => some (l ++ [m])
  | none, _ => none

/-- Abnormal termination of a collaborator call (a thrown exception inside
nested type evaluation), plus the failure of a debug assertion, plus
exhaustion of the structural fuel used to model the base-class recursion of
canAssignProtocolClassToSelf. -/
inductive EvalErr where
  | thrown (code : Nat)
  | assertionFailure
  | fuelExhausted
deriving DecidableEq

/-- Result of running a piece of the engine: a value or abnormal exit. -/
abbrev EvalResult (α : Type) := Except EvalErr α

/-- ClassMember (result of lookUpClassMember), restricted to the two fields
protocols.ts reads. -/
structure ClassMember where
  classType : PType
  symbol : Symbol

/-- maxTypeRecursionCount from types.ts (a fixed constant there). -/
def maxTypeRecursionCount : Nat := 16

/-- The collaborator interface.  The first group models pure helpers from
typeUtils.ts / types.ts; the second models TypeEvaluator methods and
canAssignProperty from properties.ts, all of which can fail abnormally.
specializeTypeForClass models typeUtils.partiallySpecializeType. -/
structure Externals where
  isTypeSame : PType → PType → Bool
  lookUpClassMember : PType → String → Option ClassMember
  specializeTypeForClass : PType → PType → Option PType → PType
  applySolvedTypeVars : PType → TypeVarContext → PType
  populateTypeVarContextForSelfType : TypeVarContext → PType → PType → TypeVarContext
  buildTypeVarContextFromSpecializedClass : PType → TypeVarContext
  getTypeVarScopeId : PType → Option Nat
  containsLiteralType : PType → Bool → Bool
  removeParamSpecVariadicsFromSignature : PType → PType
  specializeForBaseClass : PType → PType → PType
  getTypedDictClassType : Option PType
  getDeclaredTypeOfSymbol : Symbol → EvalResult (Option PType)
  getEffectiveTypeOfSymbol : Symbol → EvalResult PType
  inferReturnTypeIfNecessary : PType → EvalResult Unit
  bindFunctionToClassOrObject :
    PType → PType → Option PType → Nat → Option Bool → Option PType →
    EvalResult (Option PType)
  canAssignType :
    PType → PType → TypeVarContext → CanAssignFlags → Nat →
    EvalResult (Bool × TypeVarContext)
  getGetterTypeFromProperty : PType → Bool → EvalResult (Option PType)
  verifyTypeArgumentsAssignable :
    PType → PType → Option TypeVarContext → CanAssignFlags → Nat →
    EvalResult Bool
  canAssignProperty :
    PType → PType → PType → PType → TypeVarContext → Option TypeVarContext →
    Nat → EvalResult (Bool × TypeVarContext)
  getTypeOfMember : ClassMember → EvalResult PType

/-- Error-propagating left fold, the shape of the forEach loops of the
source once the mutable loop state is made explicit. -/
def foldM {α σ : Type} (f : σ → α → EvalResult σ) : List α → σ → EvalResult σ
  | [], st => .ok st
  | a :: l, st =>
    match f st a with
    | .error e => .error e
    | .ok st' => foldM f l st'

/-- The mutable state of one canAssignClassToProtocolInternal /
canAssignModuleToProtocol call: the typesAreConsistent accumulator, the
checkedSymbolSet, the optional diagnostic sink, srcClassTypeVarContext and
genericDestTypeVarContext. -/
structure CmpState where
  typesAreConsistent : Bool
  checkedSymbolSet : List String
  diag : Option Diag
  srcCtx : TypeVarContext
  genCtx : TypeVarContext

/-- Primary declaration test of protocols.ts lines 333-334 (and 575-579):
the first declaration exists, is a variable declaration and is not final
(mutable class or instance variables enforce invariance). -/
def isInvariantPrimaryDecl (s : Symbol) : Bool :=
  match s.declarations.head? with
  | some d => d.kind == DeclKind.var && !d.isFinal
  | none => false

/-- Final-declaration test of protocols.ts lines 359-364: some typed
declaration is a final variable declaration. -/
def isFinalVarSymbol (s : Symbol) : Bool :=
  (s.getTypedDeclarations).any (fun d => d.kind == DeclKind.var && d.isFinal)

/-- Lines 168-183: resolve the matching member on the candidate, looking in
the metaclass first when the candidate is treated as an instantiable class
(also records resolved-via-metaclass and the addSolveForScope update of
srcClassTypeVarContext). -/
def resolveSrcMember (ex : Externals) (srcType : PType)
    (treatSourceAsInstantiable : Bool) (name : String)
    (srcCtx : TypeVarContext) : Option ClassMember × Bool × TypeVarContext :=
  if treatSourceAsInstantiable then
    match srcType.effectiveMetaclass with
    | some meta =>
      if meta.isInstantiableClass then
        match ex.lookUpClassMember meta name with
        | some mi => (some mi, true, srcCtx.addSolveForScope (ex.getTypeVarScopeId meta))
        | none => (ex.lookUpClassMember srcType name, false, srcCtx)
      else (ex.lookUpClassMember srcType name, false, srcCtx)
    | none => (ex.lookUpClassMember srcType name, false, srcCtx)
  else (ex.lookUpClassMember srcType name, false, srcCtx)

/-- The member the candidate resolution yields, without the bookkeeping
components of resolveSrcMember. -/
def resolvedMember (ex : Externals) (srcType : PType)
    (treatSourceAsInstantiable : Bool) (name : String) : Option ClassMember :=
  (resolveSrcMember ex srcType treatSourceAsInstantiable name ⟨[]⟩).1

/-- Lines 200-212: the candidate member's effective type; return type
inference is forced first for functions, and the member is Unknown when the
providing class is not instantiable. -/
def computeSrcMemberType (ex : Externals) (srcType : PType) (mi : ClassMember) :
    EvalResult PType :=
  if mi.classType.isInstantiableClass then
    match ex.getEffectiveTypeOfSymbol mi.symbol with
    | .error e => .error e
    | .ok symbolType =>
      match (if symbolType.isFunction then ex.inferReturnTypeIfNecessary symbolType
             else .ok ()) with
      | .error e => .error e
      | .ok _ => .ok (ex.specializeTypeForClass symbolType mi.classType (some srcType))
  else .ok .unknown

/-- Lines 214-274: bind callable members to the proper receiver (metaclass
member: bind to the class itself; otherwise bind to instance or class object
following treatSourceAsInstantiable), strip ParamSpec variadics, and
substitute the Self type variable into the protocol member's type. -/
def bindMemberTypes (ex : Externals) (srcType : PType)
    (selfCtx : TypeVarContext) (treatSourceAsInstantiable : Bool)
    (recursionCount : Nat) (isMemberFromMetaclass : Bool) (mi : ClassMember)
    (destM srcM : PType) : EvalResult (PType × PType) :=
  if srcM.isFunction || srcM.isOverloadedFunction then
    if isMemberFromMetaclass then
      match ex.bindFunctionToClassOrObject srcType srcM none recursionCount
          (some false) (some srcType) with
      | .error e => .error e
      | .ok bound =>
        let srcM := match bound with
          | some b => ex.removeParamSpecVariadicsFromSignature b
          | none => srcM
        if destM.isFunction || destM.isOverloadedFunction then
          match ex.bindFunctionToClassOrObject srcType destM none recursionCount
              (some false) (some srcType) with
          | .error e => .error e
          | .ok boundD =>
            let destM := match boundD with
              | some b => ex.removeParamSpecVariadicsFromSignature b
              | none => destM
            .ok (destM, srcM)
        else .ok (destM, srcM)
    else if mi.classType.isInstantiableClass then
      let destM := ex.applySolvedTypeVars destM selfCtx
      match ex.bindFunctionToClassOrObject
          (if treatSourceAsInstantiable then srcType else srcType.cloneAsInstance)
          srcM (some mi.classType) recursionCount none none with
      | .error e => .error e
      | .ok bound =>
        let srcM := match bound with
          | some b => ex.removeParamSpecVariadicsFromSignature b
          | none => srcM
        if destM.isFunction || destM.isOverloadedFunction then
          match ex.bindFunctionToClassOrObject srcType.cloneAsInstance destM
              (some mi.classType) recursionCount none none with
          | .error e => .error e
          | .ok boundD =>
            let destM := match boundD with
              | some b => ex.removeParamSpecVariadicsFromSignature b
              | none => destM
            .ok (destM, srcM)
        else .ok (destM, srcM)
    else .ok (destM, srcM)
  else .ok (ex.applySolvedTypeVars destM selfCtx, srcM)

/-- Lines 276-357: the per-member type comparison.  Properties get the
property-assignability check (or the getter extraction fallback); other
members get the general assignability check, with EnforceInvariance added
exactly when the protocol member's primary declaration is a plain non-final
variable.  Returns the check's outcome, the grown diagnostic and the updated
genericDestTypeVarContext. -/
def compareMemberTypes (ex : Externals) (mroClass srcType : PType)
    (selfCtx : TypeVarContext) (caf : CanAssignFlags)
    (treatSourceAsInstantiable : Bool) (recursionCount : Nat) (name : String)
    (symbol : Symbol) (destM srcM : PType) (genCtx : TypeVarContext)
    (diag : Option Diag) : EvalResult (Bool × Option Diag × TypeVarContext) :=
  if destM.isClassInstance && destM.isPropertyClass then
    if srcM.isClassInstance && srcM.isPropertyClass && !treatSourceAsInstantiable then
      match ex.canAssignProperty destM.cloneAsInstantiable srcM.cloneAsInstantiable
          mroClass srcType genCtx (some selfCtx) recursionCount with
      | .error e => .error e
      | .ok (ok, genCtx') =>
        if ok then .ok (true, diag, genCtx')
        else .ok (false, addMsg diag (.memberTypeMismatch name), genCtx')
    else
      match ex.getGetterTypeFromProperty destM true with
      | .error e => .error e
      | .ok none => .ok (false, addMsg diag (.memberTypeMismatch name), genCtx)
      | .ok (some getterType) =>
        match ex.canAssignType getterType srcM genCtx caf recursionCount with
        | .error e => .error e
        | .ok (ok, genCtx') =>
          if ok then .ok (true, diag, genCtx')
          else .ok (false, addMsg diag (.memberTypeMismatch name), genCtx')
  else
    match ex.canAssignType destM srcM genCtx
        (if isInvariantPrimaryDecl symbol then caf.withEnforceInvariance else caf)
        recursionCount with
    | .error e => .error e
    | .ok (ok, genCtx') =>
      if ok then .ok (true, diag, genCtx')
      else
        .ok (false,
          addMsg (if isInvariantPrimaryDecl symbol then
              addMsg diag (.memberIsInvariant name)
            else diag) (.memberTypeMismatch name), genCtx')

/-- Lines 359-381: both sides must agree on whether the member is declared
final; the diagnostic names the side that declared it final. -/
def finalAgreementCheck (destSym srcSym : Symbol) (name : String)
    (diag : Option Diag) : Bool × Option Diag :=
  let isDestFinal := isFinalVarSymbol destSym
  let isSrcFinal := isFinalVarSymbol srcSym
  if isDestFinal != isSrcFinal then
    if isDestFinal then (false, addMsg diag (.memberIsFinalInProtocol name))
    else (false, addMsg diag (.memberIsNotFinalInProtocol name))
  else (true, diag)

/-- Application of the final-agreement check to the comparison state. -/
def applyFinalAgreement (destSym srcSym : Symbol) (name : String)
    (st : CmpState) : CmpState :=
  let r := finalAgreementCheck destSym srcSym name st.diag
  { st with diag := r.2, typesAreConsistent := st.typesAreConsistent && r.1 }

/-- Lines 384-389: a pure class variable member of the protocol cannot be
satisfied by a candidate member that is not class-level. -/
def classVarCheck (symbol : Symbol) (mi : ClassMember) (name : String)
    (st : CmpState) : CmpState :=
  if symbol.isClassVar && !mi.symbol.isClassMember then
    { st with
        diag := addMsg st.diag (.protocolMemberClassVar name),
        typesAreConsistent := false }
  else st

/-- Lines 149-391 for a single protocol member: resolve the candidate
member, report it missing, or fetch / specialize / bind both sides, compare
them, then run the final-agreement and class-variable checks. -/
def checkClassProtocolMember (ex : Externals) (destType srcType : PType)
    (selfCtx : TypeVarContext) (caf : CanAssignFlags)
    (treatSourceAsInstantiable : Bool) (recursionCount : Nat)
    (mroClass : PType) (name : String) (symbol : Symbol) (st : CmpState) :
    EvalResult CmpState :=
  match resolveSrcMember ex srcType treatSourceAsInstantiable name st.srcCtx with
  | (none, _, srcCtx') =>
    .ok { st with
        srcCtx := srcCtx',
        diag := addMsg st.diag (.protocolMemberMissing name),
        typesAreConsistent := false }
  | (some mi, isMemberFromMetaclass, srcCtx') =>
    match ex.getDeclaredTypeOfSymbol symbol with
    | .error e => .error e
    | .ok none => .ok (classVarCheck symbol mi name { st with srcCtx := srcCtx' })
    | .ok (some dm0) =>
      match computeSrcMemberType ex srcType mi with
      | .error e => .error e
      | .ok srcM0 =>
        match bindMemberTypes ex srcType selfCtx treatSourceAsInstantiable
            recursionCount isMemberFromMetaclass mi
            (if isSameGenericClass mroClass destType then dm0
             else ex.specializeTypeForClass dm0 mroClass none) srcM0 with
        | .error e => .error e
        | .ok (dm2, srcM1) =>
          match compareMemberTypes ex mroClass srcType selfCtx caf
              treatSourceAsInstantiable recursionCount name symbol dm2 srcM1
              st.genCtx st.diag with
          | .error e => .error e
          | .ok (okCmp, diag1, genCtx1) =>
            .ok (classVarCheck symbol mi name
              (applyFinalAgreement symbol mi.symbol name
                { st with
                    srcCtx := srcCtx', genCtx := genCtx1, diag := diag1,
                    typesAreConsistent := st.typesAreConsistent && okCmp }))

/-- One kept item of the member walk: mark the name checked, then run the
per-member check. -/
def classItemStep (ex : Externals) (destType srcType : PType)
    (selfCtx : TypeVarContext) (caf : CanAssignFlags)
    (treatSourceAsInstantiable : Bool) (recursionCount : Nat) (st : CmpState)
    (x : PType × String × Symbol) : EvalResult CmpState :=
  checkClassProtocolMember ex destType srcType selfCtx caf
    treatSourceAsInstantiable recursionCount x.1 x.2.1 x.2.2
    { st with checkedSymbolSet := x.2.1 :: st.checkedSymbolSet }

/-- Lines 147-392 for one field-table entry: skip non class members, ignored
members, already checked names, the class-getitem hook for instance
comparisons and the slots entry, otherwise check the member. -/
def classFieldStep (ex : Externals) (destType srcType : PType)
    (selfCtx : TypeVarContext) (caf : CanAssignFlags)
    (treatSourceAsInstantiable : Bool) (recursionCount : Nat)
    (mroClass : PType) (st : CmpState) (p : String × Symbol) :
    EvalResult CmpState :=
  if p.2.isClassMember && !p.2.isIgnoredForProtocolMatch &&
      !(st.checkedSymbolSet.contains p.1) then
    if !treatSourceAsInstantiable && p.1 == "__class_getitem__" then .ok st
    else if p.1 == "__slots__" then .ok st
    else
      classItemStep ex destType srcType selfCtx caf treatSourceAsInstantiable
        recursionCount st (mroClass, p.1, p.2)
  else .ok st

/-- Lines 147-392, inner loop: walk one protocol ancestor's own field table
in declaration order. -/
def classProtocolFieldLoop (ex : Externals) (destType srcType : PType)
    (selfCtx : TypeVarContext) (caf : CanAssignFlags)
    (treatSourceAsInstantiable : Bool) (recursionCount : Nat)
    (mroClass : PType) (st : CmpState) : EvalResult CmpState :=
  foldM (classFieldStep ex destType srcType selfCtx caf
    treatSourceAsInstantiable recursionCount mroClass) mroClass.clsFields st

/-- Lines 142-146 for one mro entry: only instantiable protocol ancestors
contribute members. -/
def classMroStep (ex : Externals) (destType srcType : PType)
    (selfCtx : TypeVarContext) (caf : CanAssignFlags)
    (treatSourceAsInstantiable : Bool) (recursionCount : Nat) (st : CmpState)
    (mroClass : PType) : EvalResult CmpState :=
  if mroClass.isInstantiableClass && mroClass.isProtocolClass then
    classProtocolFieldLoop ex destType srcType selfCtx caf
      treatSourceAsInstantiable recursionCount mroClass st
  else .ok st

/-- Lines 142-393, outer loop: walk the protocol's mro. -/
def classProtocolMroWalk (ex : Externals) (destType srcType : PType)
    (selfCtx : TypeVarContext) (caf : CanAssignFlags)
    (treatSourceAsInstantiable : Bool) (recursionCount : Nat) (st : CmpState) :
    EvalResult CmpState :=
  foldM (classMroStep ex destType srcType selfCtx caf
    treatSourceAsInstantiable recursionCount) destType.mro st

/-- Lines 125-133: a TypedDict candidate is replaced by the _TypedDict
placeholder class so synthesized members are not treated as genuine ones. -/
def effectiveSrcType (ex : Externals) (srcType : PType) : PType :=
  if srcType.isTypedDictClass then
    match ex.getTypedDictClassType with
    | some tdc => if tdc.isInstantiableClass then tdc else srcType
    | none => srcType
  else srcType

/-- canAssignClassToProtocolInternal (lines 104-416). -/
def canAssignClassToProtocolInternal (ex : Externals) (destType srcType : PType)
    (diag : Option Diag) (typeVarContext : Option TypeVarContext)
    (flags : CanAssignFlags) (treatSourceAsInstantiable : Bool)
    (recursionCount : Nat) : EvalResult (Bool × Option Diag) :=
  if flags.enforceInvariance then .ok (ex.isTypeSame destType srcType, diag)
  else
    let genericDestType := destType.stripTypeArgs
    let selfTypeVarContext := ex.populateTypeVarContextForSelfType
      ⟨[ex.getTypeVarScopeId destType]⟩ destType srcType
    let srcTypeEff := effectiveSrcType ex srcType
    let caf : CanAssignFlags :=
      if ex.containsLiteralType srcTypeEff true then
        { retainLiteralsForTypeVar := true }
      else {}
    let st0 : CmpState :=
      ⟨true, [], diag, ex.buildTypeVarContextFromSpecializedClass srcTypeEff,
        ⟨[ex.getTypeVarScopeId destType]⟩⟩
    match classProtocolMroWalk ex destType srcTypeEff selfTypeVarContext caf
        treatSourceAsInstantiable recursionCount st0 with
    | .error e => .error e
    | .ok st =>
      if st.typesAreConsistent && decide (0 < destType.typeParamCount) &&
          destType.typeArgs.isSome then
        match ex.verifyTypeArgumentsAssignable destType
            (ex.applySolvedTypeVars genericDestType st.genCtx) typeVarContext
            flags recursionCount with
        | .error e => .error e
        | .ok ok => .ok (ok, st.diag)
      else .ok (st.typesAreConsistent, st.diag)

/-- An entry of the pending protocolAssignmentStack. -/
structure ProtocolAssignmentStackEntry where
  srcType : PType
  destType : PType

/-- The structural-equality test applied to each stack entry (lines 70-74). -/
def stackEntryMatches (ex : Externals) (srcType destType : PType)
    (entry : ProtocolAssignmentStackEntry) : Bool :=
  ex.isTypeSame entry.srcType srcType && ex.isTypeSame entry.destType destType

/-- canAssignClassToProtocol (lines 53-102).  The module-scoped
protocolAssignmentStack is threaded explicitly: the function receives the
stack it starts with and returns the stack it leaves behind, together with
the comparison outcome (normal or abnormal).  The try/catch of the source
re-raises the collaborator failure after popping the entry it pushed. -/
def canAssignClassToProtocol (ex : Externals) (destType srcType : PType)
    (diag : Option Diag) (typeVarContext : Option TypeVarContext)
    (flags : CanAssignFlags) (treatSourceAsInstantiable : Bool)
    (recursionCount : Nat) (stack : List ProtocolAssignmentStackEntry) :
    EvalResult (Bool × Option Diag) × List ProtocolAssignmentStackEntry :=
  if recursionCount > maxTypeRecursionCount then (.ok (true, diag), stack)
  else
    if stack.any (stackEntryMatches ex srcType destType) then
      (.ok (true, diag), stack)
    else
      let stack' := stack ++ [⟨srcType, destType⟩]
      match canAssignClassToProtocolInternal ex destType srcType diag
          typeVarContext flags treatSourceAsInstantiable (recursionCount + 1) with
      | .error e => (.error e, stack'.dropLast)
      | .ok r => (.ok r, stack'.dropLast)

/-- A ModuleType: a flat member table. -/
structure ModuleTypeM where
  fields : List (String × Symbol)

/-- Map.get on an insertion-ordered field table. -/
def fieldsGet : List (String × Symbol) → String → Option Symbol
  | [], _ => none
  | p :: rest, n => if p.1 == n then some p.2 else fieldsGet rest n

/-- Lines 464-477 of the module walk: bind a callable protocol member to an
instance of the protocol class itself (no ParamSpec variadics stripping on
this path). -/
def moduleBindDest (ex : Externals) (destType : PType) (recursionCount : Nat)
    (dm1 srcM : PType) : EvalResult PType :=
  if srcM.isFunction || srcM.isOverloadedFunction then
    if dm1.isFunction || dm1.isOverloadedFunction then
      match ex.bindFunctionToClassOrObject destType.cloneAsInstance dm1
          (some destType) recursionCount none none with
      | .error e => .error e
      | .ok (some b) => .ok b
      | .ok none => .ok dm1
    else .ok dm1
  else .ok dm1

/-- Lines 450-496 for a single protocol member of the module comparison:
look the name up in the module's flat field table, report it missing, or
compare the member types with the Default comparison flags. -/
def moduleMemberStep (ex : Externals) (destType : PType)
    (srcFields : List (String × Symbol)) (recursionCount : Nat) (st : CmpState)
    (p : String × Symbol) : EvalResult CmpState :=
  match fieldsGet srcFields p.1 with
  | none =>
    .ok { st with
        diag := addMsg st.diag (.protocolMemberMissing p.1),
        typesAreConsistent := false }
  | some memberSymbol =>
    match ex.getDeclaredTypeOfSymbol p.2 with
    | .error e => .error e
    | .ok none => .ok st
    | .ok (some dm0) =>
      match ex.getEffectiveTypeOfSymbol memberSymbol with
      | .error e => .error e
      | .ok srcMemberType =>
        match moduleBindDest ex destType recursionCount
            (ex.specializeTypeForClass dm0 destType none) srcMemberType with
        | .error e => .error e
        | .ok dm2 =>
          match ex.canAssignType dm2 srcMemberType st.genCtx
              CanAssignFlags.default recursionCount with
          | .error e => .error e
          | .ok (ok, genCtx') =>
            if ok then .ok { st with genCtx := genCtx' }
            else .ok { st with
                genCtx := genCtx',
                diag := addMsg st.diag (.memberTypeMismatch p.1),
                typesAreConsistent := false }

/-- One kept item of the module member walk. -/
def moduleItemStep (ex : Externals) (destType : PType)
    (srcFields : List (String × Symbol)) (recursionCount : Nat) (st : CmpState)
    (p : String × Symbol) : EvalResult CmpState :=
  moduleMemberStep ex destType srcFields recursionCount
    { st with checkedSymbolSet := p.1 :: st.checkedSymbolSet } p

/-- Lines 444-448 for one field-table entry of the module walk (no slots or
class-getitem special cases on this path). -/
def moduleFieldStep (ex : Externals) (destType : PType)
    (srcFields : List (String × Symbol)) (recursionCount : Nat) (st : CmpState)
    (p : String × Symbol) : EvalResult CmpState :=
  if p.2.isClassMember && !p.2.isIgnoredForProtocolMatch &&
      !(st.checkedSymbolSet.contains p.1) then
    moduleItemStep ex destType srcFields recursionCount st p
  else .ok st

/-- Lines 444-499, inner loop of the module walk. -/
def moduleProtocolFieldLoop (ex : Externals) (destType : PType)
    (srcFields : List (String × Symbol)) (recursionCount : Nat)
    (mroClass : PType) (st : CmpState) : EvalResult CmpState :=
  foldM (moduleFieldStep ex destType srcFields recursionCount)
    mroClass.clsFields st

/-- Lines 439-443 for one mro entry of the module walk. -/
def moduleMroStep (ex : Externals) (destType : PType)
    (srcFields : List (String × Symbol)) (recursionCount : Nat) (st : CmpState)
    (mroClass : PType) : EvalResult CmpState :=
  if mroClass.isInstantiableClass && mroClass.isProtocolClass then
    moduleProtocolFieldLoop ex destType srcFields recursionCount mroClass st
  else .ok st

/-- Lines 439-500, outer loop of the module walk. -/
def moduleProtocolMroWalk (ex : Externals) (destType : PType)
    (srcFields : List (String × Symbol)) (recursionCount : Nat)
    (st : CmpState) : EvalResult CmpState :=
  foldM (moduleMroStep ex destType srcFields recursionCount) destType.mro st

/-- canAssignModuleToProtocol (lines 418-523). -/
def canAssignModuleToProtocol (ex : Externals) (destType : PType)
    (srcType : ModuleTypeM) (diag : Option Diag)
    (typeVarContext : Option TypeVarContext) (flags : CanAssignFlags)
    (recursionCount : Nat) : EvalResult (Bool × Option Diag) :=
  if recursionCount > maxTypeRecursionCount then .ok (true, diag)
  else
    let rc := recursionCount + 1
    let genericDestType := destType.stripTypeArgs
    let st0 : CmpState :=
      ⟨true, [], diag, ⟨[]⟩, ⟨[ex.getTypeVarScopeId destType]⟩⟩
    match moduleProtocolMroWalk ex destType srcType.fields rc st0 with
    | .error e => .error e
    | .ok st =>
      if st.typesAreConsistent && decide (0 < destType.typeParamCount) &&
          destType.typeArgs.isSome then
        match ex.verifyTypeArgumentsAssignable destType
            (ex.applySolvedTypeVars genericDestType st.genCtx) typeVarContext
            flags rc with
        | .error e => .error e
        | .ok ok => .ok (ok, st.diag)
      else .ok (st.typesAreConsistent, st.diag)

/-- Lines 542-597 for one own member of the protocol in the self-variance
check.  The guard keeps the isAssignable short-circuit of the source; the
missing-member debug assertion is modelled as an abnormal exit. -/
def selfMemberStep (ex : Externals) (destType srcType : PType)
    (recursionCount : Nat) (st : Bool × TypeVarContext) (p : String × Symbol) :
    EvalResult (Bool × TypeVarContext) :=
  if st.1 && p.2.isClassMember && !p.2.isIgnoredForProtocolMatch then
    match ex.lookUpClassMember srcType p.1 with
    | none => .error .assertionFailure
    | some mi =>
      match ex.getDeclaredTypeOfSymbol p.2 with
      | .error e => .error e
      | .ok none => .ok st
      | .ok (some dm0) =>
        match ex.getTypeOfMember mi with
        | .error e => .error e
        | .ok srcMemberType =>
          let destMemberType := ex.specializeTypeForClass dm0 destType none
          if destMemberType.isClassInstance && destMemberType.isPropertyClass &&
              srcMemberType.isClassInstance && srcMemberType.isPropertyClass then
            match ex.canAssignProperty destMemberType.cloneAsInstantiable
                srcMemberType.cloneAsInstantiable destType srcType st.2 none
                recursionCount with
            | .error e => .error e
            | .ok (ok, ctx') => .ok (if ok then st.1 else false, ctx')
          else
            let flags := if isInvariantPrimaryDecl p.2 then
                CanAssignFlags.default.withEnforceInvariance
              else CanAssignFlags.default
            match ex.canAssignType destMemberType srcMemberType st.2 flags
                recursionCount with
            | .error e => .error e
            | .ok (ok, ctx') => .ok (if ok then st.1 else false, ctx')
  else .ok st

/-- Lines 600-607: the bases recursed into are the generic protocol base
classes other than the builtin object and Protocol roots. -/
def selfBaseQualifies (baseClass : PType) : Bool :=
  baseClass.isInstantiableClass && baseClass.isProtocolClass &&
  !(baseClass.isBuiltIn "object") && !(baseClass.isBuiltIn "Protocol") &&
  decide (0 < baseClass.typeParamCount)

/-- Lines 600-621: fold of the base-class recursion, specializing both sides
for each qualifying base and conjoining the recursive outcome. -/
def selfBaseFold (ex : Externals) (recurse : PType → PType → EvalResult Bool)
    (destType srcType : PType) (bases : List PType) (acc : Bool) :
    EvalResult Bool :=
  foldM (fun acc baseClass =>
    if selfBaseQualifies baseClass then
      match recurse (ex.specializeForBaseClass destType baseClass)
          (ex.specializeForBaseClass srcType baseClass) with
      | .error e => .error e
      | .ok b => .ok (if b then acc else false)
    else .ok acc) bases acc

/-- canAssignProtocolClassToSelf (lines 527-624).  The source recursion is
bounded by the finite base-class hierarchy; here that bound is an explicit
fuel argument (fuel exhaustion is an abnormal exit that never occurs when
the fuel exceeds the hierarchy depth).  The debug assertions at entry are
preconditions of the caller and are not modelled. -/
def canAssignProtocolClassToSelf (ex : Externals) :
    Nat → PType → PType → Nat → EvalResult Bool
  | 0, _, _, _ => .error .fuelExhausted
  | fuel + 1, destType, srcType, recursionCount =>
    match foldM (selfMemberStep ex destType srcType recursionCount)
        destType.clsFields (true, ⟨[]⟩) with
    | .error e => .error e
    | .ok st =>
      selfBaseFold ex
        (fun a b => canAssignProtocolClassToSelf ex fuel a b recursionCount)
        destType srcType destType.baseClasses st.1

/-- The name-and-symbol eligibility filters of lines 148-162, without the
checked-name set: class member, not ignored for protocol match, not the
class-getitem hook during an instance comparison, not the slots entry. -/
def classMemberNameEligible (treatSourceAsInstantiable : Bool) (n : String)
    (s : Symbol) : Bool :=
  s.isClassMember && !s.isIgnoredForProtocolMatch &&
  !(!treatSourceAsInstantiable && n == "__class_getitem__") &&
  !(n == "__slots__")

/-- The sequence of (ancestor, name, symbol) items the class-candidate walk
checks within one ancestor's field table, given the names already checked:
the eligibility filters of lines 148-162 with the checked-name bookkeeping
of line 166.  The second component is the grown checked-name set. -/
def classFieldsToCheck (treatSourceAsInstantiable : Bool) (mroClass : PType) :
    List (String × Symbol) → List String →
    List (PType × String × Symbol) × List String
  | [], checked => ([], checked)
  | p :: rest, checked =>
    if classMemberNameEligible treatSourceAsInstantiable p.1 p.2 &&
        !(checked.contains p.1) then
      let r := classFieldsToCheck treatSourceAsInstantiable mroClass rest
        (p.1 :: checked)
      ((mroClass, p.1, p.2) :: r.1, r.2)
    else classFieldsToCheck treatSourceAsInstantiable mroClass rest checked

/-- The item sequence of the class-candidate walk across an ancestor list. -/
def classMembersToCheckAux (treatSourceAsInstantiable : Bool) :
    List PType → List String → List (PType × String × Symbol)
  | [], _ => []
  | mroClass :: rest, checked =>
    if mroClass.isInstantiableClass && mroClass.isProtocolClass then
      let r := classFieldsToCheck treatSourceAsInstantiable mroClass
        mroClass.clsFields checked
      r.1 ++ classMembersToCheckAux treatSourceAsInstantiable rest r.2
    else classMembersToCheckAux treatSourceAsInstantiable rest checked

/-- The item sequence the class-candidate member walk evaluates for a
protocol, computed from the protocol alone (it cannot depend on candidate
resolution outcomes). -/
def classMembersToCheck (destType : PType) (treatSourceAsInstantiable : Bool) :
    List (PType × String × Symbol) :=
  classMembersToCheckAux treatSourceAsInstantiable destType.mro []

/-- The member names the class-candidate comparison evaluates, in order. -/
def classCheckedNames (destType : PType) (treatSourceAsInstantiable : Bool) :
    List String :=
  (classMembersToCheck destType treatSourceAsInstantiable).map (fun x => x.2.1)

/-- Module-walk analogue of classFieldsToCheck (no skip rules besides the
class-member / ignored-for-match / already-checked filters). -/
def moduleFieldsToCheck :
    List (String × Symbol) → List String →
    List (String × Symbol) × List String
  | [], checked => ([], checked)
  | p :: rest, checked =>
    if p.2.isClassMember && !p.2.isIgnoredForProtocolMatch &&
        !(checked.contains p.1) then
      let r := moduleFieldsToCheck rest (p.1 :: checked)
      (p :: r.1, r.2)
    else moduleFieldsToCheck rest checked

/-- Module-walk analogue of classMembersToCheckAux. -/
def moduleMembersToCheckAux : List PType → List String → List (String × Symbol)
  | [], _ => []
  | mroClass :: rest, checked =>
    if mroClass.isInstantiableClass && mroClass.isProtocolClass then
      let r := moduleFieldsToCheck mroClass.clsFields checked
      r.1 ++ moduleMembersToCheckAux rest r.2
    else moduleMembersToCheckAux rest checked

/-- The item sequence the module member walk evaluates for a protocol. -/
def moduleMembersToCheck (destType : PType) : List (String × Symbol) :=
  moduleMembersToCheckAux destType.mro []

/-- The member names the module comparison evaluates, in order. -/
def moduleCheckedNames (destType : PType) : List String :=
  (moduleMembersToCheck destType).map (fun x => x.1)

/-- Number of occurrences of a message in an optional diagnostic. -/
def countMsg (m : DiagMsg) : Option Diag → Nat
  | some l => l.count m
  | none => 0

/-- An optional diagnostic grows only by appending: absence is preserved and
an existing message list stays a prefix. -/
def DiagExt (d d' : Option Diag) : Prop :=
  (d = none → d' = none) ∧ ∀ l, d = some l → ∃ l₂, d' = some (l ++ l₂)

/-- How one member check may change the comparison state: the checked-name
set is untouched, an established inconsistency is never forgotten, and the
diagnostic only grows. -/
def StExt (st st' : CmpState) : Prop :=
  st'.checkedSymbolSet = st.checkedSymbolSet
  ∧ (st.typesAreConsistent = false → st'.typesAreConsistent = false)
  ∧ DiagExt st.diag st'.diag

/-- Example symbol: a plain non-final typed variable member. -/
def exSymbolVar : Symbol := ⟨0, true, false, false, [⟨DeclKind.var, false, true⟩]⟩

/-- Example symbol: a final typed variable member. -/
def exSymbolFinal : Symbol := ⟨1, true, false, false, [⟨DeclKind.var, true, true⟩]⟩

/-- Example symbol: a method member (function declaration). -/
def exSymbolFunc : Symbol := ⟨2, true, false, false, [⟨DeclKind.func, false, true⟩]⟩

/-- Example protocol class details. -/
def exInfo : ClassInfo := ⟨0, "P", true, false, false, none, 0⟩

/-- Example protocol ancestor holding one required member named m. -/
def exMroClass : PType := .cls exInfo [("m", exSymbolVar)] [] [] none none false

/-- Example protocol whose mro lists one protocol ancestor. -/
def exProto : PType := .cls exInfo [("m", exSymbolVar)] [exMroClass] [] none none false

/-- Example candidate class with no members. -/
def exCandidate : PType :=
  .cls ⟨1, "C", false, false, false, none, 0⟩ [] [] [] none none false

/-- Example protocol ancestor declaring the class-getitem hook. -/
def exMroCG : PType :=
  .cls exInfo [("__class_getitem__", exSymbolFunc)] [] [] none none false

/-- Example protocol whose only required member is the class-getitem hook. -/
def exProtoCG : PType := .cls exInfo [] [exMroCG] [] none none false

/-- Example collaborator record with benign behaviors. -/
def exBase : Externals where
  isTypeSame := fun _ _ => true
  lookUpClassMember := fun _ _ => none
  specializeTypeForClass := fun tp _ _ => tp
  applySolvedTypeVars := fun tp _ => tp
  populateTypeVarContextForSelfType := fun c _ _ => c
  buildTypeVarContextFromSpecializedClass := fun _ => ⟨[]⟩
  getTypeVarScopeId := fun _ => none
  containsLiteralType := fun _ _ => false
  removeParamSpecVariadicsFromSignature := fun tp => tp
  specializeForBaseClass := fun _ b => b
  getTypedDictClassType := none
  getDeclaredTypeOfSymbol := fun _ => .ok none
  getEffectiveTypeOfSymbol := fun _ => .ok .unknown
  inferReturnTypeIfNecessary := fun _ => .ok ()
  bindFunctionToClassOrObject := fun _ _ _ _ _ _ => .ok none
  canAssignType := fun _ _ c _ _ => .ok (true, c)
  getGetterTypeFromProperty := fun _ _ => .ok none
  verifyTypeArgumentsAssignable := fun _ _ _ _ _ => .ok true
  canAssignProperty := fun _ _ _ _ c _ _ => .ok (true, c)
  getTypeOfMember := fun _ => .ok .unknown

/-- Example collaborator record whose member lookup succeeds but whose
declared-type fetch fails abnormally. -/
def exErr : Externals :=
  { exBase with
      lookUpClassMember := fun _ _ => some ⟨exCandidate, exSymbolVar⟩,
      getDeclaredTypeOfSymbol := fun _ => .error (.thrown 0) }

/-- Example comparison state with an empty diagnostic sink attached. -/
def exState : CmpState := ⟨true, [], some [], ⟨[]⟩, ⟨[]⟩⟩

/-- Example collaborator record where the member resolves with a declared
type and the assignability check reports back the invariance flag it was
handed. -/
def exFound : Externals :=
  { exBase with
      lookUpClassMember := fun _ _ => some ⟨exMroClass, exSymbolVar⟩,
      getDeclaredTypeOfSymbol := fun _ => .ok (some .unknown),
      canAssignType := fun _ _ c f _ => .ok (f.enforceInvariance, c) }

/-- Example symbol: a pure class variable member of the protocol. -/
def exSymbolClassVar : Symbol := ⟨4, true, true, false, [⟨DeclKind.var, false, true⟩]⟩

/-- Example symbol: a candidate member that is not class-level. -/
def exSymbolNotMember : Symbol := ⟨5, false, false, false, []⟩

/-- Example collaborator record resolving to a non class-level candidate
member while the protocol symbol's declared type cannot be determined. -/
def exNoDeclCV : Externals :=
  { exBase with
      lookUpClassMember := fun _ _ => some ⟨exMroClass, exSymbolNotMember⟩,
      getDeclaredTypeOfSymbol := fun _ => .ok none }

/-- Example collaborator record resolving to a candidate member declared
final while the protocol symbol is not final. -/
def exFinalSrc : Externals :=
  { exBase with
      lookUpClassMember := fun _ _ => some ⟨exMroClass, exSymbolFinal⟩,
      getDeclaredTypeOfSymbol := fun _ => .ok (some .unknown) }

/-- Example collaborator record where declared types resolve. -/
def exModuleFound : Externals :=
  { exBase with getDeclaredTypeOfSymbol := fun _ => .ok (some .unknown) }

theorem foldM_append {α σ : Type} (f : σ → α → EvalResult σ) (l₁ l₂ : List α) :
    ∀ st, foldM f (l₁ ++ l₂) st =
      match foldM f l₁ st with
      | .error e => .error e
      | .ok st' => foldM f l₂ st' := by
  induction l₁ with
  | nil => intro st; rfl
  | cons a l ih =>
    intro st
    simp only [List.cons_append, foldM]
    cases f st a with
    | error e => rfl
    | ok st' => simpa using ih st'

theorem dropLast_append_singleton {α : Type} (l : List α) (a : α) :
    (l ++ [a]).dropLast = l := by
  simp

/-- Claim C1: every push of a (candidate, protocol) pair performed by
canAssignClassToProtocol is matched by exactly one pop before the call
returns, on the normal path and on the abnormal path alike, so the guard
stack is restored on every exit; an abnormal outcome of the internal
comparison is re-raised after the pop. -/
theorem claim1_guard_stack_balanced (ex : Externals) (destType srcType : PType)
    (diag : Option Diag) (tvc : Option TypeVarContext) (flags : CanAssignFlags)
    (t : Bool) (rc : Nat) (stack : List ProtocolAssignmentStackEntry) :
    (canAssignClassToProtocol ex destType srcType diag tvc flags t rc stack).2
        = stack
    ∧ (∀ e, rc ≤ maxTypeRecursionCount →
        stack.any (stackEntryMatches ex srcType destType) = false →
        canAssignClassToProtocolInternal ex destType srcType diag tvc flags t
          (rc + 1) = .error e →
        (canAssignClassToProtocol ex destType srcType diag tvc flags t rc
          stack).1 = .error e) := by
  constructor
  · unfold canAssignClassToProtocol
    split
    · rfl
    · split
      · rfl
      · split <;> simp
  · intro e hrc hstack hint
    unfold canAssignClassToProtocol
    rw [if_neg (by omega), if_neg (by simp [hstack]), hint]

/-- Claim C2: past the maximum recursion depth both entry points return the
optimistic true immediately, and a structurally matching pending pair on the
guard stack makes canAssignClassToProtocol return true immediately without
pushing; in all three cases no member comparison is performed and the stack
is left untouched. -/
theorem claim2_optimistic_short_circuits (ex : Externals) (destType : PType)
    (diag : Option Diag) (tvc : Option TypeVarContext) (flags : CanAssignFlags)
    (t : Bool) (rc : Nat) (stack : List ProtocolAssignmentStackEntry)
    (srcType : PType) (m : ModuleTypeM) :
    (rc > maxTypeRecursionCount →
      canAssignClassToProtocol ex destType srcType diag tvc flags t rc stack
          = (.ok (true, diag), stack)
      ∧ canAssignModuleToProtocol ex destType m diag tvc flags rc
          = .ok (true, diag))
    ∧ (rc ≤ maxTypeRecursionCount →
      stack.any (stackEntryMatches ex srcType destType) = true →
      canAssignClassToProtocol ex destType srcType diag tvc flags t rc stack
          = (.ok (true, diag), stack)) := by
  constructor
  · intro h
    constructor
    · unfold canAssignClassToProtocol
      rw [if_pos h]
    · unfold canAssignModuleToProtocol
      rw [if_pos h]
  · intro h1 h2
    unfold canAssignClassToProtocol
    rw [if_neg (by omega), if_pos (by simp [h2])]

theorem claim1_guard_stack_balanced_witness :
    0 ≤ maxTypeRecursionCount
    ∧ ([] : List ProtocolAssignmentStackEntry).any
        (stackEntryMatches exErr exCandidate exProto) = false
    ∧ (canAssignClassToProtocol exErr exProto exCandidate none none {} false 0
        []).1 = .error (.thrown 0) :=
  ⟨by decide, rfl,
    (claim1_guard_stack_balanced exErr exProto exCandidate none none {} false 0
      []).2 (.thrown 0) (by decide) rfl (by rfl)⟩

theorem claim2_optimistic_short_circuits_witness :
    (17 > maxTypeRecursionCount
      ∧ canAssignClassToProtocol exBase exProto exCandidate none none {} false
          17 [] = (.ok (true, none), [])
      ∧ canAssignModuleToProtocol exBase exProto ⟨[]⟩ none none {} 17
          = .ok (true, none))
    ∧ (0 ≤ maxTypeRecursionCount
      ∧ ([⟨exCandidate, exProto⟩] : List ProtocolAssignmentStackEntry).any
          (stackEntryMatches exBase exCandidate exProto) = true
      ∧ canAssignClassToProtocol exBase exProto exCandidate none none {} false 0
          [⟨exCandidate, exProto⟩]
          = (.ok (true, none), [⟨exCandidate, exProto⟩])) := by
  have h1 := (claim2_optimistic_short_circuits exBase exProto none none {} false
    17 [] exCandidate ⟨[]⟩).1 (by decide)
  have h2 := (claim2_optimistic_short_circuits exBase exProto none none {} false
    0 [⟨exCandidate, exProto⟩] exCandidate ⟨[]⟩).2 (by decide) rfl
  exact ⟨⟨by decide, h1.1, h1.2⟩, ⟨by decide, rfl, h2⟩⟩

theorem DiagExt_refl (d : Option Diag) : DiagExt d d := by
  constructor
  · intro h; exact h
  · intro l hl; exact ⟨[], by simp [hl]⟩

theorem DiagExt_addMsg (d : Option Diag) (m : DiagMsg) : DiagExt d (addMsg d m) := by
  constructor
  · intro h; subst h; rfl
  · intro l hl; subst hl; exact ⟨[m], rfl⟩

theorem DiagExt_trans {d₁ d₂ d₃ : Option Diag} (h₁ : DiagExt d₁ d₂)
    (h₂ : DiagExt d₂ d₃) : DiagExt d₁ d₃ := by
  constructor
  · intro h; exact h₂.1 (h₁.1 h)
  · intro l hl
    obtain ⟨l₂, hl₂⟩ := h₁.2 l hl
    obtain ⟨l₃, hl₃⟩ := h₂.2 _ hl₂
    exact ⟨l₂ ++ l₃, by simp [hl₃]⟩

theorem StExt_refl (st : CmpState) : StExt st st :=
  ⟨rfl, fun h => h, DiagExt_refl _⟩

theorem StExt_trans {st₁ st₂ st₃ : CmpState} (h₁ : StExt st₁ st₂)
    (h₂ : StExt st₂ st₃) : StExt st₁ st₃ :=
  ⟨h₂.1.trans h₁.1, fun h => h₂.2.1 (h₁.2.1 h), DiagExt_trans h₁.2.2 h₂.2.2⟩

theorem classVarCheck_ext (symbol : Symbol) (mi : ClassMember) (name : String)
    (st : CmpState) : StExt st (classVarCheck symbol mi name st) := by
  unfold classVarCheck
  split
  · exact ⟨rfl, fun _ => rfl, DiagExt_addMsg _ _⟩
  · exact StExt_refl st

theorem applyFinalAgreement_ext (a b : Symbol) (name : String) (st : CmpState) :
    StExt st (applyFinalAgreement a b name st) := by
  simp only [applyFinalAgreement, finalAgreementCheck]
  split
  · split
    · exact ⟨rfl, by intro h; simp [h], DiagExt_addMsg _ _⟩
    · exact ⟨rfl, by intro h; simp [h], DiagExt_addMsg _ _⟩
  · exact ⟨rfl, by intro h; simp [h], DiagExt_refl _⟩

theorem compareMemberTypes_diag (ex : Externals) (mroClass srcType : PType)
    (selfCtx : TypeVarContext) (caf : CanAssignFlags) (t : Bool) (rc : Nat)
    (name : String) (symbol : Symbol) (destM srcM : PType)
    (genCtx : TypeVarContext) (diag : Option Diag) (ok : Bool)
    (diag' : Option Diag) (ctx' : TypeVarContext)
    (h : compareMemberTypes ex mroClass srcType selfCtx caf t rc name symbol
      destM srcM genCtx diag = .ok (ok, diag', ctx')) :
    DiagExt diag diag' := by
  unfold compareMemberTypes at h
  split at h
  · split at h
    · split at h
      · exact absurd h (by simp)
      · split at h <;> (cases h; first | exact DiagExt_refl _ | exact DiagExt_addMsg _ _)
    · split at h
      · exact absurd h (by simp)
      · cases h; exact DiagExt_addMsg _ _
      · split at h
        · exact absurd h (by simp)
        · split at h <;> (cases h; first | exact DiagExt_refl _ | exact DiagExt_addMsg _ _)
  · split at h
    · exact absurd h (by simp)
    · split at h
      · cases h; exact DiagExt_refl _
      · cases h
        split
        · exact DiagExt_trans (DiagExt_addMsg _ _) (DiagExt_addMsg _ _)
        · exact DiagExt_addMsg _ _

theorem compareMemberTypes_diag_any (ex : Externals) (mroClass srcType : PType)
    (selfCtx : TypeVarContext) (caf : CanAssignFlags) (t : Bool) (rc : Nat)
    (name : String) (symbol : Symbol) (destM srcM : PType)
    (genCtx : TypeVarContext) (diag : Option Diag) (r : Bool × Option Diag × TypeVarContext)
    (h : compareMemberTypes ex mroClass srcType selfCtx caf t rc name symbol
      destM srcM genCtx diag = .ok r) :
    DiagExt diag r.2.1 := by
  obtain ⟨ok, diag', ctx'⟩ := r
  exact compareMemberTypes_diag ex mroClass srcType selfCtx caf t rc name
    symbol destM srcM genCtx diag ok diag' ctx' h

theorem checkMember_ext (ex : Externals) (destType srcType : PType)
    (selfCtx : TypeVarContext) (caf : CanAssignFlags) (t : Bool) (rc : Nat)
    (mroClass : PType) (name : String) (symbol : Symbol) (st st' : CmpState)
    (h : checkClassProtocolMember ex destType srcType selfCtx caf t rc mroClass
      name symbol st = .ok st') : StExt st st' := by
  unfold checkClassProtocolMember at h
  split at h
  · cases h
    exact ⟨rfl, fun _ => rfl, DiagExt_addMsg _ _⟩
  · split at h
    · exact absurd h (by simp)
    · cases h
      exact classVarCheck_ext _ _ _ _
    · split at h
      · exact absurd h (by simp)
      · split at h
        · exact absurd h (by simp)
        · split at h
          · exact absurd h (by simp)
          · cases h
            refine StExt_trans (StExt_trans ?_ (applyFinalAgreement_ext _ _ _ _))
              (classVarCheck_ext _ _ _ _)
            refine ⟨rfl, by intro hc; simp [hc], ?_⟩
            exact compareMemberTypes_diag _ _ _ _ _ _ _ _ _ _ _ _ _ _ _ _
              (by assumption)

theorem checkMember_checked (ex : Externals) (destType srcType : PType)
    (selfCtx : TypeVarContext) (caf : CanAssignFlags) (t : Bool) (rc : Nat)
    (mroClass : PType) (name : String) (symbol : Symbol) (st st' : CmpState)
    (h : checkClassProtocolMember ex destType srcType selfCtx caf t rc mroClass
      name symbol st = .ok st') : st'.checkedSymbolSet = st.checkedSymbolSet :=
  (checkMember_ext ex destType srcType selfCtx caf t rc mroClass name symbol
    st st' h).1

theorem classItemStep_checked (ex : Externals) (destType srcType : PType)
    (selfCtx : TypeVarContext) (caf : CanAssignFlags) (t : Bool) (rc : Nat)
    (st st' : CmpState) (x : PType × String × Symbol)
    (h : classItemStep ex destType srcType selfCtx caf t rc st x = .ok st') :
    st'.checkedSymbolSet = x.2.1 :: st.checkedSymbolSet := by
  unfold classItemStep at h
  exact checkMember_checked _ _ _ _ _ _ _ _ _ _ _ _ h

theorem classFieldLoop_decomp (ex : Externals) (destType srcType : PType)
    (selfCtx : TypeVarContext) (caf : CanAssignFlags) (t : Bool) (rc : Nat)
    (mroClass : PType) :
    ∀ (fields : List (String × Symbol)) (st : CmpState),
      foldM (classFieldStep ex destType srcType selfCtx caf t rc mroClass)
          fields st
        = foldM (classItemStep ex destType srcType selfCtx caf t rc)
            (classFieldsToCheck t mroClass fields st.checkedSymbolSet).1 st
      ∧ ∀ st',
          foldM (classFieldStep ex destType srcType selfCtx caf t rc mroClass)
            fields st = .ok st' →
          st'.checkedSymbolSet
            = (classFieldsToCheck t mroClass fields st.checkedSymbolSet).2 := by
  intro fields
  induction fields with
  | nil =>
    intro st
    exact ⟨rfl, fun st' h => by cases h; rfl⟩
  | cons p rest ih =>
    intro st
    by_cases hc : (classMemberNameEligible t p.1 p.2 &&
        !(st.checkedSymbolSet.contains p.1)) = true
    · have hc' := hc
      simp only [classMemberNameEligible, Bool.and_eq_true] at hc'
      obtain ⟨⟨⟨⟨ha, hb⟩, hA⟩, hB⟩, hcon⟩ := hc'
      have h1 : (p.2.isClassMember && !p.2.isIgnoredForProtocolMatch &&
          !(st.checkedSymbolSet.contains p.1)) = true := by
        simp only [Bool.and_eq_true]
        exact ⟨⟨ha, hb⟩, hcon⟩
      simp only [Bool.not_eq_true'] at hA hB
      have hstep : classFieldStep ex destType srcType selfCtx caf t rc mroClass
          st p = classItemStep ex destType srcType selfCtx caf t rc st
            (mroClass, p.1, p.2) := by
        simp only [classFieldStep]
        rw [if_pos h1, if_neg (by simp [hA]), if_neg (by simp [hB])]
      have hlist : classFieldsToCheck t mroClass (p :: rest) st.checkedSymbolSet
          = ((mroClass, p.1, p.2) ::
              (classFieldsToCheck t mroClass rest (p.1 :: st.checkedSymbolSet)).1,
            (classFieldsToCheck t mroClass rest (p.1 :: st.checkedSymbolSet)).2) := by
        simp only [classFieldsToCheck]
        rw [if_pos hc]
      rw [hlist]
      simp only [foldM, hstep]
      cases hitem : classItemStep ex destType srcType selfCtx caf t rc st
          (mroClass, p.1, p.2) with
      | error e =>
        exact ⟨rfl, fun st' h => by cases h⟩
      | ok s1 =>
        have hchk : s1.checkedSymbolSet = p.1 :: st.checkedSymbolSet :=
          classItemStep_checked ex destType srcType selfCtx caf t rc st s1 _ hitem
        have ihs := ih s1
        rw [hchk] at ihs
        exact ⟨ihs.1, fun st' h => ihs.2 st' h⟩
    · have hstep : classFieldStep ex destType srcType selfCtx caf t rc mroClass
          st p = .ok st := by
        simp only [classFieldStep]
        split
        · rename_i houter
          split
          · rfl
          · rename_i hA2
            split
            · rfl
            · rename_i hB2
              exfalso
              apply hc
              simp only [Bool.and_eq_true] at houter
              obtain ⟨⟨ha, hb⟩, hcon⟩ := houter
              simp only [classMemberNameEligible, Bool.and_eq_true]
              refine ⟨⟨⟨⟨ha, hb⟩, ?_⟩, ?_⟩, hcon⟩
              · simp only [Bool.not_eq_true']
                exact Bool.eq_false_iff.mpr hA2
              · simp only [Bool.not_eq_true']
                exact Bool.eq_false_iff.mpr hB2
        · rfl
      have hlist : classFieldsToCheck t mroClass (p :: rest) st.checkedSymbolSet
          = classFieldsToCheck t mroClass rest st.checkedSymbolSet := by
        simp only [classFieldsToCheck]
        rw [if_neg hc]
      rw [hlist]
      simp only [foldM, hstep]
      exact ih st

theorem classMroWalk_decomp (ex : Externals) (destType srcType : PType)
    (selfCtx : TypeVarContext) (caf : CanAssignFlags) (t : Bool) (rc : Nat) :
    ∀ (mro : List PType) (st : CmpState),
      foldM (classMroStep ex destType srcType selfCtx caf t rc) mro st
        = foldM (classItemStep ex destType srcType selfCtx caf t rc)
            (classMembersToCheckAux t mro st.checkedSymbolSet) st := by
  intro mro
  induction mro with
  | nil => intro st; rfl
  | cons mc rest ih =>
    intro st
    by_cases hmc : (mc.isInstantiableClass && mc.isProtocolClass) = true
    · have hlist : classMembersToCheckAux t (mc :: rest) st.checkedSymbolSet
          = (classFieldsToCheck t mc mc.clsFields st.checkedSymbolSet).1 ++
            classMembersToCheckAux t rest
              (classFieldsToCheck t mc mc.clsFields st.checkedSymbolSet).2 := by
        simp only [classMembersToCheckAux]
        rw [if_pos hmc]
      rw [hlist]
      have hmstep : classMroStep ex destType srcType selfCtx caf t rc st mc
          = foldM (classFieldStep ex destType srcType selfCtx caf t rc mc)
              mc.clsFields st := by
        simp only [classMroStep]
        rw [if_pos hmc]
        rfl
      have hd := classFieldLoop_decomp ex destType srcType selfCtx caf t rc mc
        mc.clsFields st
      simp only [foldM, hmstep, hd.1, foldM_append]
      cases hres : foldM (classItemStep ex destType srcType selfCtx caf t rc)
          (classFieldsToCheck t mc mc.clsFields st.checkedSymbolSet).1 st with
      | error e => rfl
      | ok s1 =>
        have hchk : s1.checkedSymbolSet
            = (classFieldsToCheck t mc mc.clsFields st.checkedSymbolSet).2 :=
          hd.2 s1 (by rw [hd.1, hres])
        have ihs := ih s1
        rw [hchk] at ihs
        exact ihs
    · have hlist : classMembersToCheckAux t (mc :: rest) st.checkedSymbolSet
          = classMembersToCheckAux t rest st.checkedSymbolSet := by
        simp only [classMembersToCheckAux]
        rw [if_neg hmc]
      have hmstep : classMroStep ex destType srcType selfCtx caf t rc st mc
          = .ok st := by
        simp only [classMroStep]
        rw [if_neg hmc]
      rw [hlist]
      simp only [foldM, hmstep]
      exact ih st

theorem moduleMemberStep_ext (ex : Externals) (destType : PType)
    (srcFields : List (String × Symbol)) (rc : Nat) (st : CmpState)
    (p : String × Symbol) (st' : CmpState)
    (h : moduleMemberStep ex destType srcFields rc st p = .ok st') :
    StExt st st' := by
  unfold moduleMemberStep at h
  split at h
  · cases h; exact ⟨rfl, fun _ => rfl, DiagExt_addMsg _ _⟩
  · split at h
    · exact absurd h (by simp)
    · cases h; exact StExt_refl _
    · split at h
      · exact absurd h (by simp)
      · split at h
        · exact absurd h (by simp)
        · split at h
          · exact absurd h (by simp)
          · split at h
            · cases h; exact ⟨rfl, fun hc => hc, DiagExt_refl _⟩
            · cases h; exact ⟨rfl, fun _ => rfl, DiagExt_addMsg _ _⟩

theorem moduleItemStep_checked (ex : Externals) (destType : PType)
    (srcFields : List (String × Symbol)) (rc : Nat) (st st' : CmpState)
    (p : String × Symbol)
    (h : moduleItemStep ex destType srcFields rc st p = .ok st') :
    st'.checkedSymbolSet = p.1 :: st.checkedSymbolSet :=
  (moduleMemberStep_ext ex destType srcFields rc _ p st' h).1

theorem moduleFieldLoop_decomp (ex : Externals) (destType : PType)
    (srcFields : List (String × Symbol)) (rc : Nat) :
    ∀ (fields : List (String × Symbol)) (st : CmpState),
      foldM (moduleFieldStep ex destType srcFields rc) fields st
        = foldM (moduleItemStep ex destType srcFields rc)
            (moduleFieldsToCheck fields st.checkedSymbolSet).1 st
      ∧ ∀ st',
          foldM (moduleFieldStep ex destType srcFields rc) fields st = .ok st' →
          st'.checkedSymbolSet
            = (moduleFieldsToCheck fields st.checkedSymbolSet).2 := by
  intro fields
  induction fields with
  | nil =>
    intro st
    exact ⟨rfl, fun st' h => by cases h; rfl⟩
  | cons p rest ih =>
    intro st
    by_cases hc : (p.2.isClassMember && !p.2.isIgnoredForProtocolMatch &&
        !(st.checkedSymbolSet.contains p.1)) = true
    · have hstep : moduleFieldStep ex destType srcFields rc st p
          = moduleItemStep ex destType srcFields rc st p := by
        simp only [moduleFieldStep]
        rw [if_pos hc]
      have hlist : moduleFieldsToCheck (p :: rest) st.checkedSymbolSet
          = (p :: (moduleFieldsToCheck rest (p.1 :: st.checkedSymbolSet)).1,
            (moduleFieldsToCheck rest (p.1 :: st.checkedSymbolSet)).2) := by
        simp only [moduleFieldsToCheck]
        rw [if_pos hc]
      rw [hlist]
      simp only [foldM, hstep]
      cases hitem : moduleItemStep ex destType srcFields rc st p with
      | error e => exact ⟨rfl, fun st' h => by cases h⟩
      | ok s1 =>
        have hchk : s1.checkedSymbolSet = p.1 :: st.checkedSymbolSet :=
          moduleItemStep_checked ex destType srcFields rc st s1 p hitem
        have ihs := ih s1
        rw [hchk] at ihs
        exact ⟨ihs.1, fun st' h => ihs.2 st' h⟩
    · have hstep : moduleFieldStep ex destType srcFields rc st p = .ok st := by
        simp only [moduleFieldStep]
        rw [if_neg hc]
      have hlist : moduleFieldsToCheck (p :: rest) st.checkedSymbolSet
          = moduleFieldsToCheck rest st.checkedSymbolSet := by
        simp only [moduleFieldsToCheck]
        rw [if_neg hc]
      rw [hlist]
      simp only [foldM, hstep]
      exact ih st

theorem moduleMroWalk_decomp (ex : Externals) (destType : PType)
    (srcFields : List (String × Symbol)) (rc : Nat) :
    ∀ (mro : List PType) (st : CmpState),
      foldM (moduleMroStep ex destType srcFields rc) mro st
        = foldM (moduleItemStep ex destType srcFields rc)
            (moduleMembersToCheckAux mro st.checkedSymbolSet) st := by
  intro mro
  induction mro with
  | nil => intro st; rfl
  | cons mc rest ih =>
    intro st
    by_cases hmc : (mc.isInstantiableClass && mc.isProtocolClass) = true
    · have hlist : moduleMembersToCheckAux (mc :: rest) st.checkedSymbolSet
          = (moduleFieldsToCheck mc.clsFields st.checkedSymbolSet).1 ++
            moduleMembersToCheckAux rest
              (moduleFieldsToCheck mc.clsFields st.checkedSymbolSet).2 := by
        simp only [moduleMembersToCheckAux]
        rw [if_pos hmc]
      rw [hlist]
      have hmstep : moduleMroStep ex destType srcFields rc st mc
          = foldM (moduleFieldStep ex destType srcFields rc) mc.clsFields st := by
        simp only [moduleMroStep]
        rw [if_pos hmc]
        rfl
      have hd := moduleFieldLoop_decomp ex destType srcFields rc mc.clsFields st
      simp only [foldM, hmstep, hd.1, foldM_append]
      cases hres : foldM (moduleItemStep ex destType srcFields rc)
          (moduleFieldsToCheck mc.clsFields st.checkedSymbolSet).1 st with
      | error e => rfl
      | ok s1 =>
        have hchk : s1.checkedSymbolSet
            = (moduleFieldsToCheck mc.clsFields st.checkedSymbolSet).2 :=
          hd.2 s1 (by rw [hd.1, hres])
        have ihs := ih s1
        rw [hchk] at ihs
        exact ihs
    · have hlist : moduleMembersToCheckAux (mc :: rest) st.checkedSymbolSet
          = moduleMembersToCheckAux rest st.checkedSymbolSet := by
        simp only [moduleMembersToCheckAux]
        rw [if_neg hmc]
      have hmstep : moduleMroStep ex destType srcFields rc st mc = .ok st := by
        simp only [moduleMroStep]
        rw [if_neg hmc]
      rw [hlist]
      simp only [foldM, hmstep]
      exact ih st

theorem classFieldsToCheck_names (t : Bool) (mc : PType) :
    ∀ (fields : List (String × Symbol)) (checked : List String),
      (∀ n, n ∈ (classFieldsToCheck t mc fields checked).2 ↔
          n ∈ (classFieldsToCheck t mc fields checked).1.map (fun x => x.2.1)
          ∨ n ∈ checked)
      ∧ ((classFieldsToCheck t mc fields checked).1.map (fun x => x.2.1)).Nodup
      ∧ (∀ n, n ∈ (classFieldsToCheck t mc fields checked).1.map
          (fun x => x.2.1) → n ∉ checked) := by
  intro fields
  induction fields with
  | nil =>
    intro checked
    refine ⟨fun n => ?_, List.nodup_nil, fun n hn => absurd hn (by simp [classFieldsToCheck])⟩
    simp [classFieldsToCheck]
  | cons p rest ih =>
    intro checked
    by_cases hc : (classMemberNameEligible t p.1 p.2 &&
        !(checked.contains p.1)) = true
    · have hlist : classFieldsToCheck t mc (p :: rest) checked
          = ((mc, p.1, p.2) :: (classFieldsToCheck t mc rest (p.1 :: checked)).1,
            (classFieldsToCheck t mc rest (p.1 :: checked)).2) := by
        simp only [classFieldsToCheck]
        rw [if_pos hc]
      have hnotin : p.1 ∉ checked := by
        intro hmem
        have h2 := ((Bool.and_eq_true _ _).mp hc).2
        rw [show checked.contains p.1 = true from List.elem_iff.mpr hmem] at h2
        simp at h2
      obtain ⟨ih1, ih2, ih3⟩ := ih (p.1 :: checked)
      rw [hlist]
      refine ⟨fun n => ?_, ?_, fun n hn => ?_⟩
      · simp only [List.map_cons, List.mem_cons]
        rw [ih1 n]
        simp only [List.mem_cons]
        tauto
      · simp only [List.map_cons]
        refine List.nodup_cons.mpr ⟨fun hmem => ?_, ih2⟩
        exact ih3 p.1 hmem (List.mem_cons_self _ _)
      · simp only [List.map_cons, List.mem_cons] at hn
        rcases hn with rfl | hn
        · exact hnotin
        · exact fun hm => ih3 n hn (List.mem_cons_of_mem _ hm)
    · have hlist : classFieldsToCheck t mc (p :: rest) checked
          = classFieldsToCheck t mc rest checked := by
        simp only [classFieldsToCheck]
        rw [if_neg hc]
      rw [hlist]
      exact ih checked

theorem classMembersAux_names (t : Bool) :
    ∀ (mro : List PType) (checked : List String),
      ((classMembersToCheckAux t mro checked).map (fun x => x.2.1)).Nodup
      ∧ (∀ n, n ∈ (classMembersToCheckAux t mro checked).map (fun x => x.2.1)
          → n ∉ checked) := by
  intro mro
  induction mro with
  | nil =>
    intro checked
    exact ⟨List.nodup_nil, fun n hn => absurd hn (by simp [classMembersToCheckAux])⟩
  | cons mcl rest ih =>
    intro checked
    by_cases hmc : (mcl.isInstantiableClass && mcl.isProtocolClass) = true
    · have hlist : classMembersToCheckAux t (mcl :: rest) checked
          = (classFieldsToCheck t mcl mcl.clsFields checked).1 ++
            classMembersToCheckAux t rest
              (classFieldsToCheck t mcl mcl.clsFields checked).2 := by
        simp only [classMembersToCheckAux]
        rw [if_pos hmc]
      rw [hlist, List.map_append]
      obtain ⟨hf1, hf2, hf3⟩ := classFieldsToCheck_names t mcl mcl.clsFields checked
      obtain ⟨hr1, hr2⟩ := ih (classFieldsToCheck t mcl mcl.clsFields checked).2
      constructor
      · rw [List.nodup_append]
        refine ⟨hf2, hr1, fun n hn1 hn2 => ?_⟩
        exact hr2 n hn2 ((hf1 n).mpr (Or.inl hn1))
      · intro n hn
        rcases List.mem_append.mp hn with h1 | h2
        · exact hf3 n h1
        · exact fun hmem => hr2 n h2 ((hf1 n).mpr (Or.inr hmem))
    · have hlist : classMembersToCheckAux t (mcl :: rest) checked
          = classMembersToCheckAux t rest checked := by
        simp only [classMembersToCheckAux]
        rw [if_neg hmc]
      rw [hlist]
      exact ih checked

theorem moduleFieldsToCheck_names :
    ∀ (fields : List (String × Symbol)) (checked : List String),
      (∀ n, n ∈ (moduleFieldsToCheck fields checked).2 ↔
          n ∈ (moduleFieldsToCheck fields checked).1.map (fun x => x.1)
          ∨ n ∈ checked)
      ∧ ((moduleFieldsToCheck fields checked).1.map (fun x => x.1)).Nodup
      ∧ (∀ n, n ∈ (moduleFieldsToCheck fields checked).1.map (fun x => x.1)
          → n ∉ checked) := by
  intro fields
  induction fields with
  | nil =>
    intro checked
    refine ⟨fun n => ?_, List.nodup_nil, fun n hn => absurd hn (by simp [moduleFieldsToCheck])⟩
    simp [moduleFieldsToCheck]
  | cons p rest ih =>
    intro checked
    by_cases hc : (p.2.isClassMember && !p.2.isIgnoredForProtocolMatch &&
        !(checked.contains p.1)) = true
    · have hlist : moduleFieldsToCheck (p :: rest) checked
          = (p :: (moduleFieldsToCheck rest (p.1 :: checked)).1,
            (moduleFieldsToCheck rest (p.1 :: checked)).2) := by
        simp only [moduleFieldsToCheck]
        rw [if_pos hc]
      have hnotin : p.1 ∉ checked := by
        intro hmem
        have h2 := ((Bool.and_eq_true _ _).mp hc).2
        rw [show checked.contains p.1 = true from List.elem_iff.mpr hmem] at h2
        simp at h2
      obtain ⟨ih1, ih2, ih3⟩ := ih (p.1 :: checked)
      rw [hlist]
      refine ⟨fun n => ?_, ?_, fun n hn => ?_⟩
      · simp only [List.map_cons, List.mem_cons]
        rw [ih1 n]
        simp only [List.mem_cons]
        tauto
      · simp only [List.map_cons]
        refine List.nodup_cons.mpr ⟨fun hmem => ?_, ih2⟩
        exact ih3 p.1 hmem (List.mem_cons_self _ _)
      · simp only [List.map_cons, List.mem_cons] at hn
        rcases hn with rfl | hn
        · exact hnotin
        · exact fun hm => ih3 n hn (List.mem_cons_of_mem _ hm)
    · have hlist : moduleFieldsToCheck (p :: rest) checked
          = moduleFieldsToCheck rest checked := by
        simp only [moduleFieldsToCheck]
        rw [if_neg hc]
      rw [hlist]
      exact ih checked

theorem moduleMembersAux_names :
    ∀ (mro : List PType) (checked : List String),
      ((moduleMembersToCheckAux mro checked).map (fun x => x.1)).Nodup
      ∧ (∀ n, n ∈ (moduleMembersToCheckAux mro checked).map (fun x => x.1)
          → n ∉ checked) := by
  intro mro
  induction mro with
  | nil =>
    intro checked
    exact ⟨List.nodup_nil, fun n hn => absurd hn (by simp [moduleMembersToCheckAux])⟩
  | cons mcl rest ih =>
    intro checked
    by_cases hmc : (mcl.isInstantiableClass && mcl.isProtocolClass) = true
    · have hlist : moduleMembersToCheckAux (mcl :: rest) checked
          = (moduleFieldsToCheck mcl.clsFields checked).1 ++
            moduleMembersToCheckAux rest
              (moduleFieldsToCheck mcl.clsFields checked).2 := by
        simp only [moduleMembersToCheckAux]
        rw [if_pos hmc]
      rw [hlist, List.map_append]
      obtain ⟨hf1, hf2, hf3⟩ := moduleFieldsToCheck_names mcl.clsFields checked
      obtain ⟨hr1, hr2⟩ := ih (moduleFieldsToCheck mcl.clsFields checked).2
      constructor
      · rw [List.nodup_append]
        refine ⟨hf2, hr1, fun n hn1 hn2 => ?_⟩
        exact hr2 n hn2 ((hf1 n).mpr (Or.inl hn1))
      · intro n hn
        rcases List.mem_append.mp hn with h1 | h2
        · exact hf3 n h1
        · exact fun hmem => hr2 n h2 ((hf1 n).mpr (Or.inr hmem))
    · have hlist : moduleMembersToCheckAux (mcl :: rest) checked
          = moduleMembersToCheckAux rest checked := by
        simp only [moduleMembersToCheckAux]
        rw [if_neg hmc]
      rw [hlist]
      exact ih checked

theorem mem_classFieldsToCheck (t : Bool) (mc : PType) :
    ∀ (fields : List (String × Symbol)) (checked : List String) (n : String),
      n ∈ (classFieldsToCheck t mc fields checked).1.map (fun x => x.2.1)
      ↔ n ∉ checked ∧ ∃ s, (n, s) ∈ fields ∧
          classMemberNameEligible t n s = true := by
  intro fields
  induction fields with
  | nil =>
    intro checked n
    simp [classFieldsToCheck]
  | cons p rest ih =>
    intro checked n
    by_cases hc : (classMemberNameEligible t p.1 p.2 &&
        !(checked.contains p.1)) = true
    · have hnotin : p.1 ∉ checked := by
        intro hmem
        have h2 := ((Bool.and_eq_true _ _).mp hc).2
        rw [show checked.contains p.1 = true from List.elem_iff.mpr hmem] at h2
        simp at h2
      have helig := ((Bool.and_eq_true _ _).mp hc).1
      have hlist : classFieldsToCheck t mc (p :: rest) checked
          = ((mc, p.1, p.2) :: (classFieldsToCheck t mc rest (p.1 :: checked)).1,
            (classFieldsToCheck t mc rest (p.1 :: checked)).2) := by
        simp only [classFieldsToCheck]
        rw [if_pos hc]
      rw [hlist]
      simp only [List.map_cons, List.mem_cons]
      constructor
      · rintro (rfl | hmem)
        · exact ⟨hnotin, p.2, Or.inl rfl, helig⟩
        · obtain ⟨hnot, s, hmem', helig'⟩ := (ih _ n).mp hmem
          exact ⟨fun hm => hnot (List.mem_cons_of_mem _ hm), s,
            Or.inr hmem', helig'⟩
      · rintro ⟨hnot, s, heq | hmem', helig'⟩
        · exact Or.inl (congrArg Prod.fst heq)
        · by_cases hnp : n = p.1
          · exact Or.inl hnp
          · refine Or.inr ((ih _ n).mpr ⟨?_, s, hmem', helig'⟩)
            intro hm
            rcases List.mem_cons.mp hm with h' | h'
            · exact hnp h'
            · exact hnot h'
    · have hlist : classFieldsToCheck t mc (p :: rest) checked
          = classFieldsToCheck t mc rest checked := by
        simp only [classFieldsToCheck]
        rw [if_neg hc]
      rw [hlist]
      constructor
      · intro hmem
        obtain ⟨hnot, s, hmem', helig'⟩ := (ih checked n).mp hmem
        exact ⟨hnot, s, List.mem_cons_of_mem _ hmem', helig'⟩
      · rintro ⟨hnot, s, hmem, helig'⟩
        rcases List.mem_cons.mp hmem with heq | hmem'
        · exfalso
          apply hc
          have h1 : n = p.1 := congrArg Prod.fst heq
          have h2 : s = p.2 := congrArg Prod.snd heq
          subst h1
          subst h2
          simp only [Bool.and_eq_true]
          refine ⟨helig', ?_⟩
          simp only [Bool.not_eq_true']
          exact Bool.eq_false_iff.mpr (fun hcon => hnot (List.elem_iff.mp hcon))
        · exact (ih checked n).mpr ⟨hnot, s, hmem', helig'⟩

theorem mem_classMembersAux (t : Bool) :
    ∀ (mro : List PType) (checked : List String) (n : String),
      n ∈ (classMembersToCheckAux t mro checked).map (fun x => x.2.1)
      ↔ n ∉ checked ∧ ∃ mcl, mcl ∈ mro ∧
          (mcl.isInstantiableClass && mcl.isProtocolClass) = true ∧
          ∃ s, (n, s) ∈ mcl.clsFields ∧
            classMemberNameEligible t n s = true := by
  intro mro
  induction mro with
  | nil =>
    intro checked n
    simp [classMembersToCheckAux]
  | cons mcl rest ih =>
    intro checked n
    by_cases hmc : (mcl.isInstantiableClass && mcl.isProtocolClass) = true
    · have hlist : classMembersToCheckAux t (mcl :: rest) checked
          = (classFieldsToCheck t mcl mcl.clsFields checked).1 ++
            classMembersToCheckAux t rest
              (classFieldsToCheck t mcl mcl.clsFields checked).2 := by
        simp only [classMembersToCheckAux]
        rw [if_pos hmc]
      rw [hlist, List.map_append, List.mem_append]
      have hf := classFieldsToCheck_names t mcl mcl.clsFields checked
      constructor
      · rintro (h1 | h2)
        · obtain ⟨hnot, s, hmem, helig⟩ :=
            (mem_classFieldsToCheck t mcl mcl.clsFields checked n).mp h1
          exact ⟨hnot, mcl, List.mem_cons_self _ _, hmc, s, hmem, helig⟩
        · obtain ⟨hnot2, mcl', hmem', hmc', hrest⟩ := (ih _ n).mp h2
          have hnotc : n ∉ checked := fun hm => hnot2 ((hf.1 n).mpr (Or.inr hm))
          exact ⟨hnotc, mcl', List.mem_cons_of_mem _ hmem', hmc', hrest⟩
      · rintro ⟨hnot, mcl', hmem', hmc', s, hmems, helig⟩
        by_cases h1 : n ∈ (classFieldsToCheck t mcl mcl.clsFields checked).1.map
            (fun x => x.2.1)
        · exact Or.inl h1
        · have hnr2 : n ∉ (classFieldsToCheck t mcl mcl.clsFields checked).2 := by
            intro hm
            rcases (hf.1 n).mp hm with hmm | hmm
            · exact h1 hmm
            · exact hnot hmm
          refine Or.inr ((ih _ n).mpr ⟨hnr2, mcl', ?_, hmc', s, hmems, helig⟩)
          rcases List.mem_cons.mp hmem' with heq | hm
          · exfalso
            subst heq
            exact h1 ((mem_classFieldsToCheck t mcl' mcl'.clsFields checked n).mpr
              ⟨hnot, s, hmems, helig⟩)
          · exact hm
    · have hlist : classMembersToCheckAux t (mcl :: rest) checked
          = classMembersToCheckAux t rest checked := by
        simp only [classMembersToCheckAux]
        rw [if_neg hmc]
      rw [hlist, ih checked n]
      constructor
      · rintro ⟨hnot, mcl', hm, hrest⟩
        exact ⟨hnot, mcl', List.mem_cons_of_mem _ hm, hrest⟩
      · rintro ⟨hnot, mcl', hm, hmc', hrest⟩
        rcases List.mem_cons.mp hm with heq | hm'
        · exfalso
          subst heq
          exact hmc hmc'
        · exact ⟨hnot, mcl', hm', hmc', hrest⟩

/-- Claim C5: the member walks evaluate exactly the statically determined
member sequence of the protocol (one item per first eligible occurrence of a
name across the ancestor list, the name being reserved before the candidate
member is ever resolved), and that sequence never repeats a name, so a
redeclaration of a name in a less specific ancestor is never re-evaluated;
this holds for the class-candidate and the module-candidate walks. -/
theorem claim5_each_name_checked_once (ex : Externals) (destType srcType : PType)
    (selfCtx : TypeVarContext) (caf : CanAssignFlags) (t : Bool) (rc : Nat)
    (srcFields : List (String × Symbol)) (st0 : CmpState) :
    classProtocolMroWalk ex destType srcType selfCtx caf t rc st0
      = foldM (classItemStep ex destType srcType selfCtx caf t rc)
          (classMembersToCheckAux t destType.mro st0.checkedSymbolSet) st0
    ∧ (classCheckedNames destType t).Nodup
    ∧ moduleProtocolMroWalk ex destType srcFields rc st0
      = foldM (moduleItemStep ex destType srcFields rc)
          (moduleMembersToCheckAux destType.mro st0.checkedSymbolSet) st0
    ∧ (moduleCheckedNames destType).Nodup :=
  ⟨classMroWalk_decomp ex destType srcType selfCtx caf t rc destType.mro st0,
    (classMembersAux_names t destType.mro []).1,
    moduleMroWalk_decomp ex destType srcFields rc destType.mro st0,
    (moduleMembersAux_names destType.mro []).1⟩

/-- Claim C6: the class-candidate comparison never checks a protocol member
named slots (for either comparison mode), and it checks the class-getitem
hook exactly when the candidate is treated as a class object: the hook is
skipped in instance comparisons and evaluated in class-object comparisons
whenever an instantiable protocol ancestor declares it eligibly. -/
theorem claim6_slots_class_getitem :
    (∀ (destType : PType) (t : Bool),
      "__slots__" ∉ classCheckedNames destType t)
    ∧ (∀ destType : PType,
      "__class_getitem__" ∉ classCheckedNames destType false)
    ∧ (∀ (destType mcl : PType) (s : Symbol), mcl ∈ destType.mro →
        (mcl.isInstantiableClass && mcl.isProtocolClass) = true →
        ("__class_getitem__", s) ∈ mcl.clsFields →
        s.isClassMember = true → s.isIgnoredForProtocolMatch = false →
        "__class_getitem__" ∈ classCheckedNames destType true) := by
  refine ⟨fun destType t hmem => ?_, fun destType hmem => ?_,
    fun destType mcl s hmro hmc hfield hcm hig => ?_⟩
  · obtain ⟨-, mcl, -, -, s, -, helig⟩ :=
      (mem_classMembersAux t destType.mro [] "__slots__").mp hmem
    simp [classMemberNameEligible] at helig
  · obtain ⟨-, mcl, -, -, s, -, helig⟩ :=
      (mem_classMembersAux false destType.mro [] "__class_getitem__").mp hmem
    simp [classMemberNameEligible] at helig
  · refine (mem_classMembersAux true destType.mro [] "__class_getitem__").mpr
      ⟨by simp, mcl, hmro, hmc, s, hfield, ?_⟩
    simp [classMemberNameEligible, hcm, hig]

theorem claim6_slots_class_getitem_witness :
    exMroCG ∈ exProtoCG.mro
    ∧ (exMroCG.isInstantiableClass && exMroCG.isProtocolClass) = true
    ∧ ("__class_getitem__", exSymbolFunc) ∈ exMroCG.clsFields
    ∧ exSymbolFunc.isClassMember = true
    ∧ exSymbolFunc.isIgnoredForProtocolMatch = false
    ∧ "__class_getitem__" ∈ classCheckedNames exProtoCG true
    ∧ "__slots__" ∉ classCheckedNames exProtoCG true
    ∧ "__class_getitem__" ∉ classCheckedNames exProtoCG false := by
  have h3 := claim6_slots_class_getitem.2.2 exProtoCG exMroCG exSymbolFunc
    (List.mem_cons_self _ _) rfl (List.mem_cons_self _ _) rfl rfl
  exact ⟨List.mem_cons_self _ _, rfl, List.mem_cons_self _ _, rfl, rfl, h3,
    claim6_slots_class_getitem.1 exProtoCG true,
    claim6_slots_class_getitem.2.1 exProtoCG⟩

theorem resolveSrcMember_fst (ex : Externals) (srcType : PType) (t : Bool)
    (name : String) (ctx : TypeVarContext) :
    (resolveSrcMember ex srcType t name ctx).1
      = resolvedMember ex srcType t name := by
  unfold resolvedMember resolveSrcMember
  split
  · split
    · split
      · split <;> rfl
      · rfl
    · rfl
  · rfl

theorem checkMember_missing (ex : Externals) (destType srcType : PType)
    (selfCtx : TypeVarContext) (caf : CanAssignFlags) (t : Bool) (rc : Nat)
    (mroClass : PType) (name : String) (symbol : Symbol) (st : CmpState)
    (h : resolvedMember ex srcType t name = none) :
    checkClassProtocolMember ex destType srcType selfCtx caf t rc mroClass name
        symbol st
      = .ok { st with
          srcCtx := (resolveSrcMember ex srcType t name st.srcCtx).2.2,
          diag := addMsg st.diag (.protocolMemberMissing name),
          typesAreConsistent := false } := by
  have h1 : (resolveSrcMember ex srcType t name st.srcCtx).1 = none := by
    rw [resolveSrcMember_fst]
    exact h
  rcases hr : resolveSrcMember ex srcType t name st.srcCtx with ⟨o1, b1, c1⟩
  rw [hr] at h1
  subst h1
  unfold checkClassProtocolMember
  rw [hr]

theorem moduleStep_missing (ex : Externals) (destType : PType)
    (srcFields : List (String × Symbol)) (rc : Nat) (st : CmpState)
    (name : String) (sym : Symbol) (h : fieldsGet srcFields name = none) :
    moduleMemberStep ex destType srcFields rc st (name, sym)
      = .ok { st with
          diag := addMsg st.diag (.protocolMemberMissing name),
          typesAreConsistent := false } := by
  unfold moduleMemberStep
  rw [h]

theorem classItemStep_ext (ex : Externals) (destType srcType : PType)
    (selfCtx : TypeVarContext) (caf : CanAssignFlags) (t : Bool) (rc : Nat)
    (st st' : CmpState) (x : PType × String × Symbol)
    (h : classItemStep ex destType srcType selfCtx caf t rc st x = .ok st') :
    (st.typesAreConsistent = false → st'.typesAreConsistent = false)
    ∧ DiagExt st.diag st'.diag := by
  unfold classItemStep at h
  have he := checkMember_ext ex destType srcType selfCtx caf t rc x.1 x.2.1
    x.2.2 _ st' h
  exact ⟨he.2.1, he.2.2⟩

theorem moduleItemStep_ext (ex : Externals) (destType : PType)
    (srcFields : List (String × Symbol)) (rc : Nat) (st st' : CmpState)
    (p : String × Symbol)
    (h : moduleItemStep ex destType srcFields rc st p = .ok st') :
    (st.typesAreConsistent = false → st'.typesAreConsistent = false)
    ∧ DiagExt st.diag st'.diag := by
  unfold moduleItemStep at h
  have he := moduleMemberStep_ext ex destType srcFields rc _ p st' h
  exact ⟨he.2.1, he.2.2⟩

theorem foldM_preserve {α : Type} (f : CmpState → α → EvalResult CmpState)
    (P : CmpState → Prop) :
    ∀ (l : List α) (st st' : CmpState),
      foldM f l st = .ok st' →
      (∀ s a s', a ∈ l → f s a = .ok s' → P s → P s') →
      P st → P st' := by
  intro l
  induction l with
  | nil =>
    intro st st' h _ hP
    cases h
    exact hP
  | cons b l ih =>
    intro st st' h hf hP
    simp only [foldM] at h
    cases hfb : f st b with
    | error e =>
      rw [hfb] at h
      exact absurd h (by simp)
    | ok s1 =>
      rw [hfb] at h
      exact ih s1 st' h (fun s a s' ha => hf s a s' (List.mem_cons_of_mem _ ha))
        (hf st b s1 (List.mem_cons_self _ _) hfb hP)

theorem foldM_establish {α : Type} (f : CmpState → α → EvalResult CmpState)
    (P Q : CmpState → Prop) :
    ∀ (l : List α) (a : α) (st st' : CmpState),
      a ∈ l → foldM f l st = .ok st' →
      Q st →
      (∀ s b s', b ∈ l → f s b = .ok s' → Q s → Q s') →
      (∀ s s', Q s → f s a = .ok s' → P s') →
      (∀ s b s', b ∈ l → f s b = .ok s' → P s → P s') →
      P st' := by
  intro l
  induction l with
  | nil =>
    intro a st st' ha
    exact absurd ha (by simp)
  | cons b l ih =>
    intro a st st' ha h hQ hQp hest hPp
    simp only [foldM] at h
    cases hfb : f st b with
    | error e =>
      rw [hfb] at h
      exact absurd h (by simp)
    | ok s1 =>
      rw [hfb] at h
      rcases List.mem_cons.mp ha with rfl | ha'
      · exact foldM_preserve f P l s1 st' h
          (fun s c s' hc => hPp s c s' (List.mem_cons_of_mem _ hc))
          (hest st s1 hQ hfb)
      · exact ih a s1 st' ha' h (hQp st b s1 (List.mem_cons_self _ _) hfb hQ)
          (fun s c s' hc => hQp s c s' (List.mem_cons_of_mem _ hc)) hest
          (fun s c s' hc => hPp s c s' (List.mem_cons_of_mem _ hc))

theorem internal_shape (ex : Externals) (destType srcType : PType)
    (diag : Option Diag) (tvc : Option TypeVarContext) (flags : CanAssignFlags)
    (t : Bool) (rc : Nat) (hfl : flags.enforceInvariance = false) :
    canAssignClassToProtocolInternal ex destType srcType diag tvc flags t rc
      = match classProtocolMroWalk ex destType (effectiveSrcType ex srcType)
            (ex.populateTypeVarContextForSelfType
              ⟨[ex.getTypeVarScopeId destType]⟩ destType srcType)
            (if ex.containsLiteralType (effectiveSrcType ex srcType) true then
              { retainLiteralsForTypeVar := true }
            else {}) t rc
            ⟨true, [], diag,
              ex.buildTypeVarContextFromSpecializedClass
                (effectiveSrcType ex srcType),
              ⟨[ex.getTypeVarScopeId destType]⟩⟩ with
        | .error e => .error e
        | .ok st =>
          if st.typesAreConsistent && decide (0 < destType.typeParamCount) &&
              destType.typeArgs.isSome then
            match ex.verifyTypeArgumentsAssignable destType
                (ex.applySolvedTypeVars destType.stripTypeArgs st.genCtx) tvc
                flags rc with
            | .error e => .error e
            | .ok ok => .ok (ok, st.diag)
          else .ok (st.typesAreConsistent, st.diag) := by
  unfold canAssignClassToProtocolInternal
  rw [if_neg (by simp [hfl])]

theorem module_shape (ex : Externals) (destType : PType) (srcType : ModuleTypeM)
    (diag : Option Diag) (tvc : Option TypeVarContext) (flags : CanAssignFlags)
    (rc : Nat) (hrc : rc ≤ maxTypeRecursionCount) :
    canAssignModuleToProtocol ex destType srcType diag tvc flags rc
      = match moduleProtocolMroWalk ex destType srcType.fields (rc + 1)
            ⟨true, [], diag, ⟨[]⟩, ⟨[ex.getTypeVarScopeId destType]⟩⟩ with
        | .error e => .error e
        | .ok st =>
          if st.typesAreConsistent && decide (0 < destType.typeParamCount) &&
              destType.typeArgs.isSome then
            match ex.verifyTypeArgumentsAssignable destType
                (ex.applySolvedTypeVars destType.stripTypeArgs st.genCtx) tvc
                flags (rc + 1) with
            | .error e => .error e
            | .ok ok => .ok (ok, st.diag)
          else .ok (st.typesAreConsistent, st.diag) := by
  unfold canAssignModuleToProtocol
  rw [if_neg (by omega)]

theorem walkResultFalse {out : Bool × Option Diag} (vb c2 c3 : Bool)
    (d : Option Diag) (X : EvalResult (Bool × Option Diag)) (hvb : vb = false)
    (h : (if vb && c2 && c3 then X else .ok (vb, d)) = .ok out) :
    out = (false, d) := by
  subst hvb
  simp only [Bool.false_and, Bool.false_eq_true, if_false] at h
  cases h
  rfl

/-- Claim C3: in both the class-candidate and the module-candidate
comparisons, every required protocol member that is not found on the
candidate makes the final result false and (when a diagnostic sink is
supplied) contributes a member-missing diagnostic naming it to the final
diagnostic; the property holds simultaneously for every missing member, so
the walk does not stop at the first mismatch and the result is the
conjunction of all per-member checks with the type-argument check. -/
theorem claim3_missing_members_accumulate (ex : Externals)
    (destType srcType : PType) (diag : Option Diag)
    (tvc : Option TypeVarContext) (flags : CanAssignFlags) (t : Bool)
    (rc : Nat) :
    (∀ out name,
      canAssignClassToProtocolInternal ex destType srcType diag tvc flags t rc
        = .ok out →
      flags.enforceInvariance = false →
      name ∈ classCheckedNames destType t →
      resolvedMember ex (effectiveSrcType ex srcType) t name = none →
      out.1 = false ∧ ∀ l, diag = some l → ∃ l',
        out.2 = some l' ∧ DiagMsg.protocolMemberMissing name ∈ l')
    ∧ (∀ (m : ModuleTypeM) out name,
      canAssignModuleToProtocol ex destType m diag tvc flags rc = .ok out →
      rc ≤ maxTypeRecursionCount →
      name ∈ moduleCheckedNames destType →
      fieldsGet m.fields name = none →
      out.1 = false ∧ ∀ l, diag = some l → ∃ l',
        out.2 = some l' ∧ DiagMsg.protocolMemberMissing name ∈ l') := by
  constructor
  · intro out name hint hfl hname hmiss
    rw [internal_shape ex destType srcType diag tvc flags t rc hfl] at hint
    cases hwalk : classProtocolMroWalk ex destType (effectiveSrcType ex srcType)
        (ex.populateTypeVarContextForSelfType
          ⟨[ex.getTypeVarScopeId destType]⟩ destType srcType)
        (if ex.containsLiteralType (effectiveSrcType ex srcType) true then
          { retainLiteralsForTypeVar := true }
        else {}) t rc
        ⟨true, [], diag,
          ex.buildTypeVarContextFromSpecializedClass
            (effectiveSrcType ex srcType),
          ⟨[ex.getTypeVarScopeId destType]⟩⟩ with
    | error e =>
      rw [hwalk] at hint
      exact absurd hint (by simp)
    | ok stW =>
      rw [hwalk] at hint
      unfold classProtocolMroWalk at hwalk
      rw [classMroWalk_decomp] at hwalk
      obtain ⟨x, hxmem, hxname⟩ := List.mem_map.mp hname
      have hstep : ∀ (s s' : CmpState),
          classItemStep ex destType (effectiveSrcType ex srcType)
            (ex.populateTypeVarContextForSelfType
              ⟨[ex.getTypeVarScopeId destType]⟩ destType srcType)
            (if ex.containsLiteralType (effectiveSrcType ex srcType) true then
              { retainLiteralsForTypeVar := true }
            else {}) t rc s x = .ok s' →
          s' = { s with
              checkedSymbolSet := x.2.1 :: s.checkedSymbolSet,
              srcCtx := (resolveSrcMember ex (effectiveSrcType ex srcType) t
                x.2.1 s.srcCtx).2.2,
              diag := addMsg s.diag (.protocolMemberMissing x.2.1),
              typesAreConsistent := false } := by
        intro s s' hs
        unfold classItemStep at hs
        rw [checkMember_missing _ _ _ _ _ _ _ _ _ _ _ (hxname ▸ hmiss)] at hs
        cases hs
        rfl
      have hP0 : stW.typesAreConsistent = false := by
        refine foldM_establish _ (fun s => s.typesAreConsistent = false)
          (fun _ => True) _ x _ stW hxmem hwalk trivial
          (fun _ _ _ _ _ _ => trivial) (fun s s' _ hs => ?_)
          (fun s b s' hb hs hP => (classItemStep_ext _ _ _ _ _ _ _ _ _ _ hs).1 hP)
        rw [hstep s s' hs]
      have hout : out = (false, stW.diag) :=
        walkResultFalse stW.typesAreConsistent _ _ stW.diag _ hP0 hint
      refine ⟨by rw [hout], ?_⟩
      intro l hl
      have hP1 : ∃ l', stW.diag = some l' ∧
          DiagMsg.protocolMemberMissing name ∈ l' := by
        refine foldM_establish _
          (fun s => ∃ l', s.diag = some l' ∧
            DiagMsg.protocolMemberMissing name ∈ l')
          (fun s => s.diag.isSome) _ x _ stW hxmem hwalk (by simp [hl])
          (fun s b s' hb hs hQ => ?_) (fun s s' hQ hs => ?_)
          (fun s b s' hb hs hP => ?_)
        · obtain ⟨l0, hl0⟩ := Option.isSome_iff_exists.mp hQ
          obtain ⟨l2, hl2⟩ :=
            (classItemStep_ext _ _ _ _ _ _ _ _ _ _ hs).2.2 l0 hl0
          simp [hl2]
        · obtain ⟨l0, hl0⟩ := Option.isSome_iff_exists.mp hQ
          rw [hstep s s' hs]
          exact ⟨l0 ++ [DiagMsg.protocolMemberMissing name], by
            simp [hl0, addMsg, hxname]⟩
        · obtain ⟨l', hl', hmem'⟩ := hP
          obtain ⟨l2, hl2⟩ :=
            (classItemStep_ext _ _ _ _ _ _ _ _ _ _ hs).2.2 l' hl'
          exact ⟨l' ++ l2, hl2, List.mem_append.mpr (Or.inl hmem')⟩
      obtain ⟨l', hl', hmem'⟩ := hP1
      exact ⟨l', by rw [hout]; exact hl', hmem'⟩
  · intro m out name hint hrc hname hmiss
    rw [module_shape ex destType m diag tvc flags rc hrc] at hint
    cases hwalk : moduleProtocolMroWalk ex destType m.fields (rc + 1)
        ⟨true, [], diag, ⟨[]⟩, ⟨[ex.getTypeVarScopeId destType]⟩⟩ with
    | error e =>
      rw [hwalk] at hint
      exact absurd hint (by simp)
    | ok stW =>
      rw [hwalk] at hint
      unfold moduleProtocolMroWalk at hwalk
      rw [moduleMroWalk_decomp] at hwalk
      obtain ⟨x, hxmem, hxname⟩ := List.mem_map.mp hname
      have hstep : ∀ (s s' : CmpState),
          moduleItemStep ex destType m.fields (rc + 1) s x = .ok s' →
          s' = { s with
              checkedSymbolSet := x.1 :: s.checkedSymbolSet,
              diag := addMsg s.diag (.protocolMemberMissing x.1),
              typesAreConsistent := false } := by
        intro s s' hs
        unfold moduleItemStep at hs
        obtain ⟨xn, xs⟩ := x
        simp only at hxname
        subst hxname
        rw [moduleStep_missing _ _ _ _ _ _ _ hmiss] at hs
        cases hs
        rfl
      have hP0 : stW.typesAreConsistent = false := by
        refine foldM_establish _ (fun s => s.typesAreConsistent = false)
          (fun _ => True) _ x _ stW hxmem hwalk trivial
          (fun _ _ _ _ _ _ => trivial) (fun s s' _ hs => ?_)
          (fun s b s' hb hs hP => (moduleItemStep_ext _ _ _ _ _ _ _ hs).1 hP)
        rw [hstep s s' hs]
      have hout : out = (false, stW.diag) :=
        walkResultFalse stW.typesAreConsistent _ _ stW.diag _ hP0 hint
      refine ⟨by rw [hout], ?_⟩
      intro l hl
      have hP1 : ∃ l', stW.diag = some l' ∧
          DiagMsg.protocolMemberMissing name ∈ l' := by
        refine foldM_establish _
          (fun s => ∃ l', s.diag = some l' ∧
            DiagMsg.protocolMemberMissing name ∈ l')
          (fun s => s.diag.isSome) _ x _ stW hxmem hwalk (by simp [hl])
          (fun s b s' hb hs hQ => ?_) (fun s s' hQ hs => ?_)
          (fun s b s' hb hs hP => ?_)
        · obtain ⟨l0, hl0⟩ := Option.isSome_iff_exists.mp hQ
          obtain ⟨l2, hl2⟩ :=
            (moduleItemStep_ext _ _ _ _ _ _ _ hs).2.2 l0 hl0
          simp [hl2]
        · obtain ⟨l0, hl0⟩ := Option.isSome_iff_exists.mp hQ
          rw [hstep s s' hs]
          exact ⟨l0 ++ [DiagMsg.protocolMemberMissing x.1], by
            simp [hl0, addMsg, hxname]⟩
        · obtain ⟨l', hl', hmem'⟩ := hP
          obtain ⟨l2, hl2⟩ :=
            (moduleItemStep_ext _ _ _ _ _ _ _ hs).2.2 l' hl'
          exact ⟨l' ++ l2, hl2, List.mem_append.mpr (Or.inl hmem')⟩
      obtain ⟨l', hl', hmem'⟩ := hP1
      exact ⟨l', by rw [hout]; exact hl', hmem'⟩

theorem claim3_missing_members_accumulate_witness :
    canAssignClassToProtocolInternal exBase exProto exCandidate (some []) none
        {} false 0 = .ok (false, some [DiagMsg.protocolMemberMissing "m"])
    ∧ "m" ∈ classCheckedNames exProto false
    ∧ resolvedMember exBase (effectiveSrcType exBase exCandidate) false "m"
        = none
    ∧ ((false, some [DiagMsg.protocolMemberMissing "m"]) :
        Bool × Option Diag).1 = false
    ∧ (∃ l', ((false, some [DiagMsg.protocolMemberMissing "m"]) :
        Bool × Option Diag).2 = some l'
        ∧ DiagMsg.protocolMemberMissing "m" ∈ l')
    ∧ canAssignModuleToProtocol exBase exProto ⟨[]⟩ (some []) none {} 0
        = .ok (false, some [DiagMsg.protocolMemberMissing "m"])
    ∧ "m" ∈ moduleCheckedNames exProto := by
  have hc := (claim3_missing_members_accumulate exBase exProto exCandidate
    (some []) none {} false 0).1
    (false, some [DiagMsg.protocolMemberMissing "m"]) "m" rfl rfl (by decide)
    rfl
  have hm := (claim3_missing_members_accumulate exBase exProto exCandidate
    (some []) none {} false 0).2
    ⟨[]⟩ (false, some [DiagMsg.protocolMemberMissing "m"]) "m" rfl (by decide)
    (by decide) rfl
  exact ⟨rfl, by decide, rfl, hc.1, hc.2 [] rfl, rfl, by decide⟩

/-- Claim C4: in the class-candidate comparison, a resolved non-property
member is compared through the external assignability check with
EnforceInvariance added to the flags exactly when the protocol symbol's
primary (first) declaration is a plain non-final variable, and with the
unchanged (covariance-permitting) flags otherwise; the member outcome is the
value produced by that call, followed by the final-agreement and
class-variable checks. -/
theorem claim4_mutable_variable_invariance (ex : Externals)
    (destType srcType : PType) (selfCtx : TypeVarContext) (caf : CanAssignFlags)
    (t : Bool) (rc : Nat) (mroClass : PType) (name : String) (symbol : Symbol)
    (st : CmpState) (mi : ClassMember) (isMeta : Bool) (ctx' : TypeVarContext)
    (dm0 srcM0 dm2 srcM1 : PType) (okc : Bool) (g' : TypeVarContext) :
    (resolveSrcMember ex srcType t name st.srcCtx = (some mi, isMeta, ctx') →
      ex.getDeclaredTypeOfSymbol symbol = .ok (some dm0) →
      computeSrcMemberType ex srcType mi = .ok srcM0 →
      bindMemberTypes ex srcType selfCtx t rc isMeta mi
        (if isSameGenericClass mroClass destType then dm0
         else ex.specializeTypeForClass dm0 mroClass none) srcM0
        = .ok (dm2, srcM1) →
      (dm2.isClassInstance && dm2.isPropertyClass) = false →
      ex.canAssignType dm2 srcM1 st.genCtx
        (if isInvariantPrimaryDecl symbol then caf.withEnforceInvariance
         else caf) rc = .ok (okc, g') →
      checkClassProtocolMember ex destType srcType selfCtx caf t rc mroClass
        name symbol st
        = .ok (classVarCheck symbol mi name
            (applyFinalAgreement symbol mi.symbol name
              { st with
                  srcCtx := ctx', genCtx := g',
                  typesAreConsistent := st.typesAreConsistent && okc,
                  diag := if okc then st.diag
                    else addMsg (if isInvariantPrimaryDecl symbol then
                        addMsg st.diag (.memberIsInvariant name)
                      else st.diag) (.memberTypeMismatch name) })))
    ∧ (isInvariantPrimaryDecl symbol = true ↔
        ∃ d rest, symbol.declarations = d :: rest ∧ d.kind = DeclKind.var
          ∧ d.isFinal = false)
    ∧ caf.withEnforceInvariance.enforceInvariance = true
    ∧ CanAssignFlags.default.enforceInvariance = false := by
  refine ⟨fun hres hdecl hsrc hbind hprop hcat => ?_, ?_, rfl, rfl⟩
  · unfold checkClassProtocolMember
    simp only [hres, hdecl, hsrc, hbind]
    unfold compareMemberTypes
    rw [if_neg (by simp [hprop])]
    simp only [hcat]
    cases okc <;> rfl
  · unfold isInvariantPrimaryDecl
    cases hd : symbol.declarations with
    | nil =>
      simp
    | cons d rest =>
      simp only [List.head?_cons]
      constructor
      · intro h
        simp only [Bool.and_eq_true, beq_iff_eq, Bool.not_eq_true'] at h
        exact ⟨d, rest, rfl, h.1, h.2⟩
      · rintro ⟨d', rest', heq, hk, hf⟩
        obtain ⟨rfl, rfl⟩ : d' = d ∧ rest' = rest := by
          have := heq
          rw [List.cons.injEq] at this
          exact ⟨this.1.symm, this.2.symm⟩
        simp [hk, hf]

theorem claim4_mutable_variable_invariance_witness :
    isInvariantPrimaryDecl exSymbolVar = true
    ∧ checkClassProtocolMember exFound exProto exCandidate ⟨[]⟩ {} false 0
        exMroClass "m" exSymbolVar exState = .ok exState := by
  have h := (claim4_mutable_variable_invariance exFound exProto exCandidate
    ⟨[]⟩ {} false 0 exMroClass "m" exSymbolVar exState
    ⟨exMroClass, exSymbolVar⟩ false ⟨[]⟩ .unknown .unknown .unknown .unknown
    true ⟨[]⟩).1 rfl rfl rfl rfl rfl rfl
  exact ⟨rfl, h⟩

/-- Claim C10: when the candidate member resolves but the protocol member's
declared type cannot be determined, the member-type comparison, invariance
enforcement and final-agreement checks are all skipped (the step reduces to
the class-variable check alone, touching nothing but srcClassTypeVarContext
bookkeeping); the class-variable check still fires: a class-variable
protocol symbol resolved to a non class-level candidate member marks the
comparison inconsistent with a class-variable diagnostic, and otherwise the
state is unchanged. -/
theorem claim10_undeclared_member_classvar_only (ex : Externals)
    (destType srcType : PType) (selfCtx : TypeVarContext) (caf : CanAssignFlags)
    (t : Bool) (rc : Nat) (mroClass : PType) (name : String) (symbol : Symbol)
    (st : CmpState) (mi : ClassMember) (isMeta : Bool) (ctx' : TypeVarContext) :
    (resolveSrcMember ex srcType t name st.srcCtx = (some mi, isMeta, ctx') →
      ex.getDeclaredTypeOfSymbol symbol = .ok none →
      checkClassProtocolMember ex destType srcType selfCtx caf t rc mroClass
        name symbol st
        = .ok (classVarCheck symbol mi name { st with srcCtx := ctx' }))
    ∧ (∀ st2 : CmpState,
        (symbol.isClassVar && !mi.symbol.isClassMember) = true →
        classVarCheck symbol mi name st2
          = { st2 with
              diag := addMsg st2.diag (.protocolMemberClassVar name),
              typesAreConsistent := false })
    ∧ (∀ st2 : CmpState,
        (symbol.isClassVar && !mi.symbol.isClassMember) = false →
        classVarCheck symbol mi name st2 = st2) := by
  refine ⟨fun hres hdecl => ?_, fun st2 h => ?_, fun st2 h => ?_⟩
  · unfold checkClassProtocolMember
    simp only [hres, hdecl]
  · unfold classVarCheck
    rw [if_pos h]
  · unfold classVarCheck
    rw [if_neg (by simp [h])]

theorem claim10_undeclared_member_classvar_only_witness :
    (exSymbolClassVar.isClassVar && !exSymbolNotMember.isClassMember) = true
    ∧ checkClassProtocolMember exNoDeclCV exProto exCandidate ⟨[]⟩ {} false 0
        exMroClass "m" exSymbolClassVar exState
      = .ok { exState with
          diag := addMsg exState.diag (.protocolMemberClassVar "m"),
          typesAreConsistent := false } := by
  have h := claim10_undeclared_member_classvar_only exNoDeclCV exProto
    exCandidate ⟨[]⟩ {} false 0 exMroClass "m" exSymbolClassVar exState
    ⟨exMroClass, exSymbolNotMember⟩ false ⟨[]⟩
  have h1 := h.1 rfl rfl
  have h2 := h.2.1 { exState with srcCtx := ⟨[]⟩ } rfl
  refine ⟨rfl, ?_⟩
  rw [h1, h2]
  rfl

theorem countMsg_app_mismatch (n' name : String) (d : Option Diag) :
    countMsg (.memberIsFinalInProtocol n') (addMsg d (.memberTypeMismatch name))
      = countMsg (.memberIsFinalInProtocol n') d
    ∧ countMsg (.memberIsNotFinalInProtocol n')
        (addMsg d (.memberTypeMismatch name))
      = countMsg (.memberIsNotFinalInProtocol n') d := by
  cases d with
  | none => exact ⟨rfl, rfl⟩
  | some l => constructor <;> simp [countMsg, addMsg]

theorem countMsg_app_invariant (n' name : String) (d : Option Diag) :
    countMsg (.memberIsFinalInProtocol n') (addMsg d (.memberIsInvariant name))
      = countMsg (.memberIsFinalInProtocol n') d
    ∧ countMsg (.memberIsNotFinalInProtocol n')
        (addMsg d (.memberIsInvariant name))
      = countMsg (.memberIsNotFinalInProtocol n') d := by
  cases d with
  | none => exact ⟨rfl, rfl⟩
  | some l => constructor <;> simp [countMsg, addMsg]

theorem countMsg_app_classvar (n' name : String) (d : Option Diag) :
    countMsg (.memberIsFinalInProtocol n')
        (addMsg d (.protocolMemberClassVar name))
      = countMsg (.memberIsFinalInProtocol n') d
    ∧ countMsg (.memberIsNotFinalInProtocol n')
        (addMsg d (.protocolMemberClassVar name))
      = countMsg (.memberIsNotFinalInProtocol n') d := by
  cases d with
  | none => exact ⟨rfl, rfl⟩
  | some l => constructor <;> simp [countMsg, addMsg]

theorem countMsg_app_final (n' : String) (l : Diag) :
    countMsg (.memberIsFinalInProtocol n')
        (addMsg (some l) (.memberIsFinalInProtocol n'))
      = countMsg (.memberIsFinalInProtocol n') (some l) + 1
    ∧ countMsg (.memberIsNotFinalInProtocol n')
        (addMsg (some l) (.memberIsFinalInProtocol n'))
      = countMsg (.memberIsNotFinalInProtocol n') (some l)
    ∧ countMsg (.memberIsNotFinalInProtocol n')
        (addMsg (some l) (.memberIsNotFinalInProtocol n'))
      = countMsg (.memberIsNotFinalInProtocol n') (some l) + 1
    ∧ countMsg (.memberIsFinalInProtocol n')
        (addMsg (some l) (.memberIsNotFinalInProtocol n'))
      = countMsg (.memberIsFinalInProtocol n') (some l) := by
  refine ⟨?_, ?_, ?_, ?_⟩ <;> simp [countMsg, addMsg]

theorem compareMemberTypes_noFinalMsgs {ex : Externals} {mroClass srcType : PType}
    {selfCtx : TypeVarContext} {caf : CanAssignFlags} {t : Bool} {rc : Nat}
    {name : String} {symbol : Symbol} {destM srcM : PType}
    {genCtx : TypeVarContext} {diag : Option Diag} {ok : Bool}
    {diag' : Option Diag} {ctx' : TypeVarContext}
    (h : compareMemberTypes ex mroClass srcType selfCtx caf t rc name symbol
      destM srcM genCtx diag = .ok (ok, diag', ctx')) (n' : String) :
    countMsg (.memberIsFinalInProtocol n') diag'
      = countMsg (.memberIsFinalInProtocol n') diag
    ∧ countMsg (.memberIsNotFinalInProtocol n') diag'
      = countMsg (.memberIsNotFinalInProtocol n') diag := by
  unfold compareMemberTypes at h
  split at h
  · split at h
    · split at h
      · exact absurd h (by simp)
      · split at h
        · cases h; exact ⟨rfl, rfl⟩
        · cases h; exact countMsg_app_mismatch n' name diag
    · split at h
      · exact absurd h (by simp)
      · cases h; exact countMsg_app_mismatch n' name diag
      · split at h
        · exact absurd h (by simp)
        · split at h
          · cases h; exact ⟨rfl, rfl⟩
          · cases h; exact countMsg_app_mismatch n' name diag
  · split at h
    · exact absurd h (by simp)
    · split at h
      · cases h; exact ⟨rfl, rfl⟩
      · cases h
        constructor
        · rw [(countMsg_app_mismatch n' name _).1]
          split
          · rw [(countMsg_app_invariant n' name diag).1]
          · rfl
        · rw [(countMsg_app_mismatch n' name _).2]
          split
          · rw [(countMsg_app_invariant n' name diag).2]
          · rfl

theorem classVarCheck_finalCounts (symbol : Symbol) (mi : ClassMember)
    (name : String) (st2 : CmpState) (n' : String) :
    countMsg (.memberIsFinalInProtocol n')
        (classVarCheck symbol mi name st2).diag
      = countMsg (.memberIsFinalInProtocol n') st2.diag
    ∧ countMsg (.memberIsNotFinalInProtocol n')
        (classVarCheck symbol mi name st2).diag
      = countMsg (.memberIsNotFinalInProtocol n') st2.diag := by
  unfold classVarCheck
  split
  · exact countMsg_app_classvar n' name st2.diag
  · exact ⟨rfl, rfl⟩

theorem applyFinalAgreement_mismatch_dest (a b : Symbol) (name : String)
    (st2 : CmpState) (hdF : isFinalVarSymbol a = true)
    (hsF : isFinalVarSymbol b = false) :
    applyFinalAgreement a b name st2
      = { st2 with
          diag := addMsg st2.diag (.memberIsFinalInProtocol name),
          typesAreConsistent := st2.typesAreConsistent && false } := by
  simp only [applyFinalAgreement, finalAgreementCheck, hdF, hsF]
  rfl

theorem applyFinalAgreement_mismatch_src (a b : Symbol) (name : String)
    (st2 : CmpState) (hdF : isFinalVarSymbol a = false)
    (hsF : isFinalVarSymbol b = true) :
    applyFinalAgreement a b name st2
      = { st2 with
          diag := addMsg st2.diag (.memberIsNotFinalInProtocol name),
          typesAreConsistent := st2.typesAreConsistent && false } := by
  simp only [applyFinalAgreement, finalAgreementCheck, hdF, hsF]
  rfl

theorem applyFinalAgreement_agree (a b : Symbol) (name : String)
    (st2 : CmpState) (h : isFinalVarSymbol a = isFinalVarSymbol b) :
    applyFinalAgreement a b name st2
      = { st2 with
          typesAreConsistent := st2.typesAreConsistent && true } := by
  simp only [applyFinalAgreement, finalAgreementCheck, h, bne_self_eq_false]
  rfl

/-- Claim C7: for a resolved candidate member whose protocol symbol has a
declared type, disagreement of the two final-variable declarations (computed
over each symbol's typed variable declarations) marks the comparison
inconsistent and appends exactly one diagnostic naming the final side: the
protocol-side message when the protocol symbol is final, the candidate-side
message when the candidate symbol is final; when both sides agree no final
diagnostic of either kind is added by the member check. -/
theorem claim7_final_disagreement (ex : Externals) (destType srcType : PType)
    (selfCtx : TypeVarContext) (caf : CanAssignFlags) (t : Bool) (rc : Nat)
    (mroClass : PType) (name : String) (symbol : Symbol) (st st' : CmpState)
    (mi : ClassMember) (isMeta : Bool) (ctx' : TypeVarContext) (dm0 : PType)
    (l : Diag)
    (hstep : checkClassProtocolMember ex destType srcType selfCtx caf t rc
      mroClass name symbol st = .ok st')
    (hres : resolveSrcMember ex srcType t name st.srcCtx
      = (some mi, isMeta, ctx'))
    (hdecl : ex.getDeclaredTypeOfSymbol symbol = .ok (some dm0))
    (hdiag : st.diag = some l) :
    (isFinalVarSymbol symbol = true → isFinalVarSymbol mi.symbol = false →
      st'.typesAreConsistent = false
      ∧ countMsg (.memberIsFinalInProtocol name) st'.diag
          = countMsg (.memberIsFinalInProtocol name) st.diag + 1
      ∧ countMsg (.memberIsNotFinalInProtocol name) st'.diag
          = countMsg (.memberIsNotFinalInProtocol name) st.diag)
    ∧ (isFinalVarSymbol symbol = false → isFinalVarSymbol mi.symbol = true →
      st'.typesAreConsistent = false
      ∧ countMsg (.memberIsNotFinalInProtocol name) st'.diag
          = countMsg (.memberIsNotFinalInProtocol name) st.diag + 1
      ∧ countMsg (.memberIsFinalInProtocol name) st'.diag
          = countMsg (.memberIsFinalInProtocol name) st.diag)
    ∧ (isFinalVarSymbol symbol = isFinalVarSymbol mi.symbol →
      countMsg (.memberIsFinalInProtocol name) st'.diag
          = countMsg (.memberIsFinalInProtocol name) st.diag
      ∧ countMsg (.memberIsNotFinalInProtocol name) st'.diag
          = countMsg (.memberIsNotFinalInProtocol name) st.diag) := by
  unfold checkClassProtocolMember at hstep
  simp only [hres, hdecl] at hstep
  split at hstep
  · exact absurd hstep (by simp)
  · split at hstep
    · exact absurd hstep (by simp)
    · split at hstep
      · exact absurd hstep (by simp)
      · rename_i srcM0 hsrc dmp hbind okCmp diag1 genCtx1 hcmp
        cases hstep
        obtain ⟨hc1, hc2⟩ := compareMemberTypes_noFinalMsgs hcmp name
        obtain ⟨l2, hl2⟩ :=
          (compareMemberTypes_diag _ _ _ _ _ _ _ _ _ _ _ _ _ _ _ _ hcmp).2 l
            hdiag
        refine ⟨fun hdF hsF => ?_, fun hdF hsF => ?_, fun hagree => ?_⟩
        · rw [applyFinalAgreement_mismatch_dest symbol mi.symbol name _ hdF hsF]
          refine ⟨?_, ?_, ?_⟩
          · exact (classVarCheck_ext symbol mi name _).2.1 (by simp)
          · rw [(classVarCheck_finalCounts symbol mi name _ name).1]
            show countMsg _ (addMsg diag1 _) = _
            rw [hl2, (countMsg_app_final name (l ++ l2)).1, ← hl2, hc1]
          · rw [(classVarCheck_finalCounts symbol mi name _ name).2]
            show countMsg _ (addMsg diag1 _) = _
            rw [hl2, (countMsg_app_final name (l ++ l2)).2.1, ← hl2, hc2]
        · rw [applyFinalAgreement_mismatch_src symbol mi.symbol name _ hdF hsF]
          refine ⟨?_, ?_, ?_⟩
          · exact (classVarCheck_ext symbol mi name _).2.1 (by simp)
          · rw [(classVarCheck_finalCounts symbol mi name _ name).2]
            show countMsg _ (addMsg diag1 _) = _
            rw [hl2, (countMsg_app_final name (l ++ l2)).2.2.1, ← hl2, hc2]
          · rw [(classVarCheck_finalCounts symbol mi name _ name).1]
            show countMsg _ (addMsg diag1 _) = _
            rw [hl2, (countMsg_app_final name (l ++ l2)).2.2.2, ← hl2, hc1]
        · rw [applyFinalAgreement_agree symbol mi.symbol name _ hagree]
          constructor
          · rw [(classVarCheck_finalCounts symbol mi name _ name).1]
            show countMsg _ diag1 = _
            rw [hc1]
          · rw [(classVarCheck_finalCounts symbol mi name _ name).2]
            show countMsg _ diag1 = _
            rw [hc2]

theorem claim7_final_disagreement_witness :
    isFinalVarSymbol exSymbolVar = false
    ∧ isFinalVarSymbol exSymbolFinal = true
    ∧ (⟨false, [], some [DiagMsg.memberIsNotFinalInProtocol "m"], ⟨[]⟩, ⟨[]⟩⟩ :
        CmpState).typesAreConsistent = false
    ∧ countMsg (.memberIsNotFinalInProtocol "m")
        (⟨false, [], some [DiagMsg.memberIsNotFinalInProtocol "m"], ⟨[]⟩,
          ⟨[]⟩⟩ : CmpState).diag
      = countMsg (.memberIsNotFinalInProtocol "m") exState.diag + 1 := by
  have h := (claim7_final_disagreement exFinalSrc exProto exCandidate ⟨[]⟩ {}
    false 0 exMroClass "m" exSymbolVar exState
    ⟨false, [], some [DiagMsg.memberIsNotFinalInProtocol "m"], ⟨[]⟩, ⟨[]⟩⟩
    ⟨exMroClass, exSymbolFinal⟩ false ⟨[]⟩ .unknown [] (by rfl) rfl rfl
    rfl).2.1 rfl rfl
  exact ⟨rfl, rfl, h.1, h.2.1⟩

/-- Claim C8: the module-candidate comparison delegates every member-type
check with the Default flags, for every member alike: no invariance is
enforced for members whose primary declaration is a mutable variable, and no
property-assignability path exists (the step's outcome never consults the
property-assignability collaborator). -/
theorem claim8_module_default_flags (ex : Externals) (destType : PType)
    (srcFields : List (String × Symbol)) (rc : Nat) (name : String)
    (symbol : Symbol) (st : CmpState) (ms : Symbol) (dm0 srcM dm2 : PType)
    (okc : Bool) (g' : TypeVarContext) :
    (fieldsGet srcFields name = some ms →
      ex.getDeclaredTypeOfSymbol symbol = .ok (some dm0) →
      ex.getEffectiveTypeOfSymbol ms = .ok srcM →
      moduleBindDest ex destType rc
        (ex.specializeTypeForClass dm0 destType none) srcM = .ok dm2 →
      ex.canAssignType dm2 srcM st.genCtx CanAssignFlags.default rc
        = .ok (okc, g') →
      moduleMemberStep ex destType srcFields rc st (name, symbol)
        = .ok (if okc then { st with genCtx := g' }
            else { st with
                genCtx := g',
                diag := addMsg st.diag (.memberTypeMismatch name),
                typesAreConsistent := false }))
    ∧ CanAssignFlags.default.enforceInvariance = false
    ∧ (∀ f, moduleMemberStep { ex with canAssignProperty := f } destType
        srcFields rc st (name, symbol)
        = moduleMemberStep ex destType srcFields rc st (name, symbol)) := by
  refine ⟨fun hget hdecl heff hbind hcat => ?_, rfl, fun f => ?_⟩
  · unfold moduleMemberStep
    simp only [hget, hdecl, heff, hbind, hcat]
    cases okc <;> rfl
  · cases ex
    rfl

theorem claim8_module_default_flags_witness :
    isInvariantPrimaryDecl exSymbolVar = true
    ∧ moduleMemberStep exModuleFound exProto [("m", exSymbolVar)] 0 exState
        ("m", exSymbolVar) = .ok exState := by
  have h := (claim8_module_default_flags exModuleFound exProto
    [("m", exSymbolVar)] 0 "m" exSymbolVar exState exSymbolVar .unknown
    .unknown .unknown true ⟨[]⟩).1 rfl rfl rfl rfl rfl
  exact ⟨rfl, h⟩

theorem selfBaseFold_char (ex : Externals)
    (recurse : PType → PType → EvalResult Bool) (d s : PType) :
    ∀ (bases : List PType) (acc r : Bool),
      selfBaseFold ex recurse d s bases acc = .ok r →
      (r = true ↔ acc = true ∧ ∀ bc ∈ bases, selfBaseQualifies bc = true →
        recurse (ex.specializeForBaseClass d bc)
          (ex.specializeForBaseClass s bc) = .ok true) := by
  intro bases
  induction bases with
  | nil =>
    intro acc r h
    cases h
    simp
  | cons bc rest ih =>
    intro acc r h
    unfold selfBaseFold at h
    simp only [foldM] at h
    by_cases hq : selfBaseQualifies bc = true
    · rw [if_pos hq] at h
      cases hrec : recurse (ex.specializeForBaseClass d bc)
          (ex.specializeForBaseClass s bc) with
      | error e =>
        rw [hrec] at h
        exact absurd h (by simp)
      | ok b =>
        rw [hrec] at h
        have hIH := ih (if b then acc else false) r h
        constructor
        · intro hr
          obtain ⟨hacc', hrest⟩ := hIH.mp hr
          cases b with
          | false => simp at hacc'
          | true =>
            refine ⟨by simpa using hacc', fun bc' hmem hq' => ?_⟩
            rcases List.mem_cons.mp hmem with rfl | hmem'
            · exact hrec
            · exact hrest bc' hmem' hq'
        · rintro ⟨hacc, hall⟩
          have hb : b = true := by
            have hh := hall bc (List.mem_cons_self _ _) hq
            rw [hrec] at hh
            simpa using hh
          subst hb
          exact hIH.mpr ⟨by simpa using hacc,
            fun bc' hm hq' => hall bc' (List.mem_cons_of_mem _ hm) hq'⟩
    · rw [if_neg hq] at h
      have hIH := ih acc r h
      constructor
      · intro hr
        obtain ⟨hacc, hrest⟩ := hIH.mp hr
        refine ⟨hacc, fun bc' hmem hq' => ?_⟩
        rcases List.mem_cons.mp hmem with rfl | hmem'
        · exact absurd hq' hq
        · exact hrest bc' hmem' hq'
      · rintro ⟨hacc, hall⟩
        exact hIH.mpr ⟨hacc,
          fun bc' hm hq' => hall bc' (List.mem_cons_of_mem _ hm) hq'⟩

theorem selfMemberFold_false (ex : Externals) (d s : PType) (rc : Nat) :
    ∀ (items : List (String × Symbol)) (ctx : TypeVarContext),
      foldM (selfMemberStep ex d s rc) items (false, ctx) = .ok (false, ctx) := by
  intro items
  induction items with
  | nil => intro ctx; rfl
  | cons p rest ih =>
    intro ctx
    simp only [foldM]
    have hstep : selfMemberStep ex d s rc (false, ctx) p = .ok (false, ctx) := by
      unfold selfMemberStep
      rw [if_neg (by simp)]
    rw [hstep]
    exact ih ctx

/-- Claim C9: in the protocol self-variance check every non-property member
whose primary declaration is a plain non-final variable is compared with
EnforceInvariance, all other members with Default flags; after the member
walk the check recurses exactly into the base classes that are generic
protocol classes other than the builtin object and Protocol roots, by
specializing both sides for that base, with the overall result the
conjunction of the member-walk outcome and every recursive outcome (and a
failed member check is never forgotten by later members). -/
theorem claim9_self_variance (ex : Externals) :
    (∀ (d s : PType) (rc : Nat) (b : Bool) (ctx : TypeVarContext)
        (name : String) (symbol : Symbol) (mi : ClassMember) (dm0 srcM : PType)
        (okc : Bool) (ctx2 : TypeVarContext),
      (b && symbol.isClassMember && !symbol.isIgnoredForProtocolMatch)
          = true →
      ex.lookUpClassMember s name = some mi →
      ex.getDeclaredTypeOfSymbol symbol = .ok (some dm0) →
      ex.getTypeOfMember mi = .ok srcM →
      ((ex.specializeTypeForClass dm0 d none).isClassInstance &&
        (ex.specializeTypeForClass dm0 d none).isPropertyClass &&
        srcM.isClassInstance && srcM.isPropertyClass) = false →
      ex.canAssignType (ex.specializeTypeForClass dm0 d none) srcM ctx
        (if isInvariantPrimaryDecl symbol then
          CanAssignFlags.default.withEnforceInvariance
        else CanAssignFlags.default) rc = .ok (okc, ctx2) →
      selfMemberStep ex d s rc (b, ctx) (name, symbol)
        = .ok (if okc then b else false, ctx2))
    ∧ (∀ (fuel : Nat) (d s : PType) (rc : Nat) (st : Bool × TypeVarContext),
      foldM (selfMemberStep ex d s rc) d.clsFields (true, ⟨[]⟩) = .ok st →
      canAssignProtocolClassToSelf ex (fuel + 1) d s rc
        = selfBaseFold ex
            (fun a b => canAssignProtocolClassToSelf ex fuel a b rc) d s
            d.baseClasses st.1)
    ∧ (∀ (recurse : PType → PType → EvalResult Bool) (d s : PType)
        (bases : List PType) (acc r : Bool),
      selfBaseFold ex recurse d s bases acc = .ok r →
      (r = true ↔ acc = true ∧ ∀ bc ∈ bases, selfBaseQualifies bc = true →
        recurse (ex.specializeForBaseClass d bc)
          (ex.specializeForBaseClass s bc) = .ok true))
    ∧ (∀ bc : PType, selfBaseQualifies bc = true ↔
        bc.isInstantiableClass = true ∧ bc.isProtocolClass = true
        ∧ bc.isBuiltIn "object" = false ∧ bc.isBuiltIn "Protocol" = false
        ∧ 0 < bc.typeParamCount)
    ∧ (∀ (d s : PType) (rc : Nat) (items : List (String × Symbol))
        (ctx : TypeVarContext),
      foldM (selfMemberStep ex d s rc) items (false, ctx)
        = .ok (false, ctx)) := by
  refine ⟨?_, ?_, fun recurse d s => selfBaseFold_char ex recurse d s, ?_,
    fun d s rc => selfMemberFold_false ex d s rc⟩
  · intro d s rc b ctx name symbol mi dm0 srcM okc ctx2 hguard hlook hdecl
      hmem hprop hcat
    unfold selfMemberStep
    simp only
    rw [if_pos hguard]
    simp only [hlook, hdecl, hmem]
    rw [if_neg (by simp [hprop])]
    simp only [hcat]
  · intro fuel d s rc st hmem
    simp only [canAssignProtocolClassToSelf]
    rw [hmem]
  · intro bc
    simp [selfBaseQualifies, and_assoc]

theorem claim9_self_variance_witness :
    isInvariantPrimaryDecl exSymbolVar = true
    ∧ selfMemberStep exFound exProto exProto 0 (true, ⟨[]⟩) ("m", exSymbolVar)
        = .ok (true, ⟨[]⟩) := by
  have h := (claim9_self_variance exFound).1 exProto exProto 0 true ⟨[]⟩ "m"
    exSymbolVar ⟨exMroClass, exSymbolVar⟩ .unknown .unknown true ⟨[]⟩ rfl rfl
    rfl rfl rfl rfl
  exact ⟨rfl, h⟩

end PyProto
